import Mathlib

/-!
Shallow embedding of the itdesign-at/eval expression evaluator
(src/eval.go) and proofs about the claims of its specification.

Modelling conventions:
* Go float64 values are modelled by GoFloat: an exact rational for the
  finite values plus the three special values +Inf, -Inf, NaN.  Rounding of
  finite results and the negative zero are idealised away; none of the
  properties proved below depends on them.
* Go int values are modelled by unbounded Int; the claims do not exercise
  64-bit wrap-around.
* Go library functions used by the source (strconv.Atoi, strconv.ParseFloat,
  math.Round, math.Pow10, math.Min, math.Max, math.Abs, strings.Trim) are
  embedded directly, following their documented behaviour on the decimal
  syntax.  Hex/underscore literal forms accepted by strconv are outside every
  claim and are treated as parse failures.
* Opaque host services (os.Getenv, time.Now, fmt.Sprintf, regexp, math.Sqrt
  and math.Pow approximation) are fields of an Env record.
-/

namespace GoEval

/-- Largest finite float64, (2^53 - 1) * 2^971, written out as a numeral so
that it evaluates without large exponentiations. -/
def maxFloat64 : ℚ :=
  (179769313486231570814527423731704356798070567525844996598917476803157260780028538760589558632766878171540458953514382464234321326889464182768467546703537516986049910576551282076245490090389328944075868508455133942304583236903222948165808559332123348274797826204144723168738177180919299881250404026184124858368 : ℕ)

/-- 2^63 as an integer (the int64 range bound). -/
def twoPow63 : ℤ := ((2 ^ 63 : ℕ) : ℤ)

/-!
The Batteries rational arithmetic (Rat.add, Rat.mul, ...) is marked
irreducible, which stops kernel evaluation of closed terms.  The embedding
therefore computes on ℚ through Rat.divInt, which does reduce; the bridge
lemmas below identify these operations with the ring operations of ℚ for
the algebraic proofs.
-/

/-- Addition on ℚ in a kernel-reducible form. -/
def ratAdd (a b : ℚ) : ℚ :=
  Rat.divInt (a.num * b.den + b.num * a.den) ((a.den * b.den : ℕ) : ℤ)

/-- Multiplication on ℚ in a kernel-reducible form. -/
def ratMul (a b : ℚ) : ℚ :=
  Rat.divInt (a.num * b.num) ((a.den * b.den : ℕ) : ℤ)

/-- Division on ℚ in a kernel-reducible form (0 for a zero divisor, the
same convention as the field division of ℚ). -/
def ratDiv (a b : ℚ) : ℚ :=
  Rat.divInt (a.num * b.den) (a.den * b.num)

/-- Negation on ℚ in a kernel-reducible form. -/
def ratNeg (a : ℚ) : ℚ := mkRat (-a.num) a.den

/-- Powers of ten as rationals in a kernel-reducible form. -/
def pow10Q (n : ℤ) : ℚ :=
  if 0 ≤ n then ((10 ^ n.toNat : ℕ) : ℚ) else mkRat 1 (10 ^ (-n).toNat)

/-- Model of a Go float64: exact finite rational or a special value. -/
inductive GoFloat where
  | finite (q : ℚ)
  | posInf
  | negInf
  | nan
deriving DecidableEq, Repr

namespace GoFloat

/-- IEEE equality (Go ==): NaN compares unequal to everything. -/
def goEq : GoFloat → GoFloat → Bool
  | .finite a, .finite b => a == b
  | .posInf, .posInf => true
  | .negInf, .negInf => true
  | _, _ => false

/-- IEEE strict less-than (Go <): false whenever NaN is involved. -/
def goLt : GoFloat → GoFloat → Bool
  | .finite a, .finite b => a < b
  | .finite _, .posInf => true
  | .negInf, .finite _ => true
  | .negInf, .posInf => true
  | _, _ => false

/-- IEEE less-or-equal (Go <=). -/
def goLe (a b : GoFloat) : Bool := goLt a b || goEq a b

/-- Negation of a float (Go unary minus via -1 * x keeps these rules). -/
def goNeg : GoFloat → GoFloat
  | .finite a => .finite (ratNeg a)
  | .posInf => .negInf
  | .negInf => .posInf
  | .nan => .nan

/-- IEEE addition on the model. -/
def goAdd : GoFloat → GoFloat → GoFloat
  | .nan, _ => .nan
  | _, .nan => .nan
  | .posInf, .negInf => .nan
  | .negInf, .posInf => .nan
  | .posInf, _ => .posInf
  | _, .posInf => .posInf
  | .negInf, _ => .negInf
  | _, .negInf => .negInf
  | .finite a, .finite b => .finite (ratAdd a b)

/-- IEEE subtraction on the model. -/
def goSub (a b : GoFloat) : GoFloat := goAdd a (goNeg b)

/-- IEEE multiplication on the model (0 * Inf is NaN). -/
def goMul : GoFloat → GoFloat → GoFloat
  | .nan, _ => .nan
  | _, .nan => .nan
  | .finite a, .finite b => .finite (ratMul a b)
  | .finite a, .posInf => if 0 < a then .posInf else if a < 0 then .negInf else .nan
  | .finite a, .negInf => if 0 < a then .negInf else if a < 0 then .posInf else .nan
  | .posInf, .finite b => if 0 < b then .posInf else if b < 0 then .negInf else .nan
  | .negInf, .finite b => if 0 < b then .negInf else if b < 0 then .posInf else .nan
  | .posInf, .posInf => .posInf
  | .posInf, .negInf => .negInf
  | .negInf, .posInf => .negInf
  | .negInf, .negInf => .posInf

/-- IEEE division on the model (sign of zero idealised to +0). -/
def goDiv : GoFloat → GoFloat → GoFloat
  | .nan, _ => .nan
  | _, .nan => .nan
  | .finite a, .finite b =>
      if b = 0 then (if 0 < a then .posInf else if a < 0 then .negInf else .nan)
      else .finite (ratDiv a b)
  | .finite _, .posInf => .finite 0
  | .finite _, .negInf => .finite 0
  | .posInf, .finite b => if 0 ≤ b then .posInf else .negInf
  | .negInf, .finite b => if 0 ≤ b then .negInf else .posInf
  | .posInf, .posInf => .nan
  | .posInf, .negInf => .nan
  | .negInf, .posInf => .nan
  | .negInf, .negInf => .nan

/-- math.IsNaN. -/
def goIsNaN : GoFloat → Bool
  | .nan => true
  | _ => false

/-- math.IsInf(f, 0): true for either infinity. -/
def goIsInf : GoFloat → Bool
  | .posInf => true
  | .negInf => true
  | _ => false

/-- math.Abs. -/
def goAbs : GoFloat → GoFloat
  | .finite a => .finite (if a < 0 then ratNeg a else a)
  | .nan => .nan
  | _ => .posInf

/-- math.Min: NaN if either argument is NaN. -/
def goMin : GoFloat → GoFloat → GoFloat
  | .nan, _ => .nan
  | _, .nan => .nan
  | .negInf, _ => .negInf
  | _, .negInf => .negInf
  | .posInf, b => b
  | a, .posInf => a
  | .finite a, .finite b => .finite (if a ≤ b then a else b)

/-- math.Max: NaN if either argument is NaN. -/
def goMax : GoFloat → GoFloat → GoFloat
  | .nan, _ => .nan
  | _, .nan => .nan
  | .posInf, _ => .posInf
  | _, .posInf => .posInf
  | .negInf, b => b
  | a, .negInf => a
  | .finite a, .finite b => .finite (if a ≤ b then b else a)

/-- Rounding half away from zero on rationals (the finite case of math.Round). -/
def ratRoundAway (q : ℚ) : ℚ :=
  if 0 ≤ q then ((⌊ratAdd q (mkRat 1 2)⌋ : ℤ) : ℚ)
  else ((-⌊ratAdd (ratNeg q) (mkRat 1 2)⌋ : ℤ) : ℚ)

/-- math.Round: rounds half away from zero; NaN and infinities unchanged. -/
def goRound : GoFloat → GoFloat
  | .finite q => .finite (ratRoundAway q)
  | x => x

/-- Truncation toward zero of a rational. -/
def ratTrunc (q : ℚ) : ℤ :=
  if 0 ≤ q then ⌊q⌋ else -⌊ratNeg q⌋

/-- Go conversion int(f) for float64 f.  For NaN, the infinities and values
outside the int64 range the Go result is implementation-defined; we model the
amd64 behaviour (the x86 integer-indefinite value, math.MinInt64).  No claim
depends on this branch. -/
def goTruncInt : GoFloat → ℤ
  | .finite q =>
      if q < -((twoPow63 : ℤ) : ℚ) ∨ ((twoPow63 : ℤ) : ℚ) ≤ q then -twoPow63
      else ratTrunc q
  | _ => -twoPow63

/-- math.Pow10: exact powers of ten in the float64 range, +Inf above it,
0 below it (values in the subnormal range idealised as exact). -/
def goPow10 (n : ℤ) : GoFloat :=
  if -323 ≤ n ∧ n ≤ 308 then .finite (pow10Q n)
  else if 308 < n then .posInf
  else .finite 0

end GoFloat

section Parsing

/-- Numeric value of a list of decimal digit characters. -/
def digitsVal (l : List Char) : ℕ :=
  l.foldl (fun a c => a * 10 + (c.toNat - '0'.toNat)) 0

/-- Split a leading sign character; returns (isNegative, rest). -/
def splitSign : List Char → Bool × List Char
  | '-' :: t => (true, t)
  | '+' :: t => (false, t)
  | l => (false, l)

/-- Core of strconv.Atoi / ParseInt base 10: syntax check and exact value,
before the int64 range check. -/
def atoiCore (s : String) : Option ℤ :=
  let (neg, ds) := splitSign s.data
  if ds ≠ [] ∧ ds.all Char.isDigit then
    some ((if neg then -1 else 1) * (digitsVal ds : ℤ))
  else none

/-- strconv.Atoi with err == nil: valid syntax and within the int64 range. -/
def goAtoi (s : String) : Option ℤ :=
  match atoiCore s with
  | some n => if -twoPow63 ≤ n ∧ n < twoPow63 then some n else none
  | none => none

/-- strconv.Atoi as used with the error ignored (literal evaluation):
0 on a syntax error, the clamped value on a range error. -/
def atoiLenient (s : String) : ℤ :=
  match atoiCore s with
  | none => 0
  | some n =>
      if n < -twoPow63 then -twoPow63
      else if twoPow63 ≤ n then twoPow63 - 1
      else n

/-- Lower-case a string (ASCII is all the callers need). -/
def lcase (s : String) : String := String.mk (s.data.map Char.toLower)

/-- Exponent part of a decimal float: "e"/"E", optional sign, digits. -/
def parseExpPart : List Char → Option ℤ
  | [] => some 0
  | 'e' :: r =>
      let (neg, ds) := splitSign r
      if ds ≠ [] ∧ ds.all Char.isDigit then
        some ((if neg then -1 else 1) * (digitsVal ds : ℤ))
      else none
  | 'E' :: r =>
      let (neg, ds) := splitSign r
      if ds ≠ [] ∧ ds.all Char.isDigit then
        some ((if neg then -1 else 1) * (digitsVal ds : ℤ))
      else none
  | _ => none

/-- Decimal mantissa and exponent of a Go float literal body
(after the sign): digits [. digits] [exponent]. -/
def parseMantissa (l : List Char) : Option ℚ :=
  let ip := l.takeWhile Char.isDigit
  let rest1 := l.dropWhile Char.isDigit
  match rest1 with
  | '.' :: rest2 =>
      let fp := rest2.takeWhile Char.isDigit
      let rest3 := rest2.dropWhile Char.isDigit
      if ip = [] ∧ fp = [] then none
      else
        match parseExpPart rest3 with
        | some e =>
            some (ratMul
              (ratAdd ((digitsVal ip : ℕ) : ℚ)
                (ratDiv ((digitsVal fp : ℕ) : ℚ) ((10 ^ fp.length : ℕ) : ℚ)))
              (pow10Q e))
        | none => none
  | _ =>
      if ip = [] then none
      else
        match parseExpPart rest1 with
        | some e => some (ratMul ((digitsVal ip : ℕ) : ℚ) (pow10Q e))
        | none => none

/-- strconv.ParseFloat(s, 64) restricted to err == nil (every call site in
the source only uses the parsed value in that case): decimal syntax, the
case-insensitive inf/infinity/nan forms, overflow rejected.  Hex floats and
underscores are treated as failures; no claim uses them. -/
def goParseFloat (s : String) : Option GoFloat :=
  let low := lcase s
  if low = "inf" ∨ low = "+inf" ∨ low = "infinity" ∨ low = "+infinity" then
    some .posInf
  else if low = "-inf" ∨ low = "-infinity" then some .negInf
  else if low = "nan" then some .nan
  else
    let (neg, body) := splitSign s.data
    match parseMantissa body with
    | some q =>
        let v : ℚ := if neg then ratNeg q else q
        if maxFloat64 < (if v < 0 then ratNeg v else v) then none else some (.finite v)
    | none => none

end Parsing

/-- stringer (src/eval.go): removes quotes from both ends of a string when it
both starts and ends with a double quote (strings.Trim removes every leading
and trailing quote character). -/
def stringer (s : String) : String :=
  if s.length < 1 then ""
  else if s.data.head? = some '"' ∧ s.data.reverse.head? = some '"' then
    String.mk (((s.data.dropWhile (· = '"')).reverse.dropWhile (· = '"')).reverse)
  else s

/-- floater (src/eval.go): string to float64, Atoi first then ParseFloat,
NaN on error. -/
def floater (s : String) : GoFloat :=
  match goAtoi s with
  | some n => .finite (n : ℚ)
  | none =>
      match goParseFloat s with
      | some f => f
      | none => .nan

/-- The doubly-trimmed character list of stringer. -/
def trimQ (l : List Char) : List Char :=
  ((l.dropWhile (· = '"')).reverse.dropWhile (· = '"')).reverse

/-- The dynamic values the interpreter produces (the interface values that
flow through eval): Go int, float64, bool, string, the int64 results of
time(), and the nil error returned by setVal(). -/
inductive Value where
  | vint (n : ℤ)
  | vfloat (f : GoFloat)
  | vbool (b : Bool)
  | vstr (s : String)
  | vint64 (n : ℤ)
  | vnil
deriving DecidableEq, Repr

/-- FloatError = math.NaN() boxed as an interface value. -/
def FloatError : Value := .vfloat .nan

/-- getArg (src/eval.go) on an already evaluated value: bool, int, float64
pass through, strings are quote-stripped, anything else becomes NaN. -/
def getArgV : Value → Value
  | .vbool b => .vbool b
  | .vint n => .vint n
  | .vfloat f => .vfloat f
  | .vstr s => .vstr (stringer s)
  | _ => FloatError

open GoFloat

/-- go/token unary operators as they reach the evaluator. -/
inductive UnOp where
  | uadd | usub | uother
deriving DecidableEq, Repr

/-- go/token binary operators as they reach the evaluator. -/
inductive BinOp where
  | add | sub | mul | quo
  | eql | lss | gtr | neq | leq | geq
  | land | lor | bor | band
  | bother
deriving DecidableEq, Repr

/-- IEEE greater-than: a > b iff b < a. -/
def goGt (a b : GoFloat) : Bool := goLt b a

/-- IEEE greater-or-equal: a >= b iff b <= a. -/
def goGe (a b : GoFloat) : Bool := goLe b a

/-- evalBinaryExpr (src/eval.go) after both operands went through getArg.
Every unlisted type combination falls through to FloatError. -/
def evalBinaryOp : BinOp → Value → Value → Value
  | .add, .vint l, .vint r => .vint (l + r)
  | .add, .vint l, .vfloat r => .vfloat (goAdd (.finite l) r)
  | .add, .vfloat l, .vint r => .vfloat (goAdd l (.finite r))
  | .add, .vfloat l, .vfloat r => .vfloat (goAdd l r)
  | .sub, .vint l, .vint r => .vint (l - r)
  | .sub, .vint l, .vfloat r => .vfloat (goSub (.finite l) r)
  | .sub, .vfloat l, .vint r => .vfloat (goSub l (.finite r))
  | .sub, .vfloat l, .vfloat r => .vfloat (goSub l r)
  | .mul, .vint l, .vint r => .vint (l * r)
  | .mul, .vint l, .vfloat r => .vfloat (goMul (.finite l) r)
  | .mul, .vfloat l, .vint r => .vfloat (goMul l (.finite r))
  | .mul, .vfloat l, .vfloat r => .vfloat (goMul l r)
  | .quo, .vint l, .vint r =>
      if r = 0 then .vfloat .posInf else .vfloat (goDiv (.finite l) (.finite r))
  | .quo, .vint l, .vfloat r =>
      if goEq r (.finite 0) then .vfloat .posInf else .vfloat (goDiv (.finite l) r)
  | .quo, .vfloat l, .vint r =>
      if r = 0 then .vfloat .posInf else .vfloat (goDiv l (.finite r))
  | .quo, .vfloat l, .vfloat r =>
      if goEq r (.finite 0) then .vfloat .posInf else .vfloat (goDiv l r)
  | .eql, .vbool l, .vbool r => .vbool (l == r)
  | .eql, .vint l, .vint r => .vbool (l == r)
  | .eql, .vint l, .vfloat r => .vbool (goEq (.finite l) r)
  | .eql, .vfloat l, .vint r => .vbool (goEq l (.finite r))
  | .eql, .vfloat l, .vfloat r => .vbool (goEq l r)
  | .eql, .vstr l, .vstr r => .vbool (l == r)
  | .lss, .vint l, .vint r => .vbool (decide (l < r))
  | .lss, .vint l, .vfloat r => .vbool (goLt (.finite l) r)
  | .lss, .vfloat l, .vint r => .vbool (goLt l (.finite r))
  | .lss, .vfloat l, .vfloat r => .vbool (goLt l r)
  | .gtr, .vint l, .vint r => .vbool (decide (r < l))
  | .gtr, .vint l, .vfloat r => .vbool (goGt (.finite l) r)
  | .gtr, .vfloat l, .vint r => .vbool (goGt l (.finite r))
  | .gtr, .vfloat l, .vfloat r => .vbool (goGt l r)
  | .neq, .vbool l, .vbool r => .vbool (l != r)
  | .neq, .vint l, .vint r => .vbool (l != r)
  | .neq, .vint l, .vfloat r => .vbool (!goEq (.finite l) r)
  | .neq, .vfloat l, .vint r => .vbool (goEq l (.finite r))
  | .neq, .vfloat l, .vfloat r => .vbool (!goEq l r)
  | .neq, .vstr l, .vstr r => .vbool (l != r)
  | .leq, .vint l, .vint r => .vbool (decide (l ≤ r))
  | .leq, .vint l, .vfloat r => .vbool (goLe (.finite l) r)
  | .leq, .vfloat l, .vint r => .vbool (goLe l (.finite r))
  | .leq, .vfloat l, .vfloat r => .vbool (goLe l r)
  | .geq, .vint l, .vint r => .vbool (decide (r ≤ l))
  | .geq, .vint l, .vfloat r => .vbool (goGe (.finite l) r)
  | .geq, .vfloat l, .vint r => .vbool (goGe l (.finite r))
  | .geq, .vfloat l, .vfloat r => .vbool (goGe l r)
  | .land, .vbool l, .vbool r => .vbool (l && r)
  | .lor, .vbool l, .vbool r => .vbool (l || r)
  | .bor, .vint l, .vint r => .vint (Int.lor l r)
  | .band, .vint l, .vint r => .vint (Int.land l r)
  | _, _, _ => FloatError

/-- Expression trees as the evaluator consumes them (go/ast nodes).
Literal nodes carry the token text for INT (strconv.Atoi is applied with its
error ignored) and for STRING (quote characters still present); FLOAT tokens
always parse, so the node carries the parsed value.  litOther stands for the
CHAR/IMAG literal kinds, which fall through to FloatError.  A call node
carries the callee identifier (evalFunctionName asserts the callee is an
identifier). -/
inductive Expr where
  | unary (op : UnOp) (x : Expr)
  | paren (x : Expr)
  | binary (op : BinOp) (x y : Expr)
  | litInt (s : String)
  | litFloat (f : GoFloat)
  | litStr (s : String)
  | litOther
  | ident (name : String)
  | call (fn : String) (args : List Expr)

/-- The variable store: a Go map modelled as an association list. -/
abbrev VarMap := List (String × Value)

/-- Map lookup. -/
def lookupVar (m : VarMap) (k : String) : Option Value :=
  (m.find? (fun p => p.1 == k)).map (·.2)

/-- Map insert/overwrite. -/
def insertVar (m : VarMap) (k : String) (v : Value) : VarMap :=
  (k, v) :: m.filter (fun p => p.1 != k)

/-- The e.variables field: a Go map that can also be nil. -/
abbrev St := Option VarMap

/-- Lookup against a possibly-nil map (nil has no entries). -/
def lookupSt (st : St) (k : String) : Option Value :=
  match st with
  | none => none
  | some m => lookupVar m k

/-- Insert against a possibly-nil map (callers initialise first; getD is
only a type-level safeguard). -/
def insertSt (st : St) (k : String) (v : Value) : St :=
  some (insertVar (st.getD []) k v)

/-- Every key present before a store operation stays present. -/
def keysPres (st st' : St) : Prop :=
  ∀ k, (lookupSt st k).isSome → (lookupSt st' k).isSome

/-- Result of one interpreter step: a value, a Go runtime panic (only the
slice expression in substr can raise one), or fuel exhaustion (an artifact
of the fuelled embedding, never the program). -/
inductive Res (α : Type) where
  | ok (a : α)
  | panic
  | fuelOut
deriving DecidableEq

/-- Sequencing on Res. -/
def Res.bind {α β : Type} : Res α → (α → Res β) → Res β
  | .ok a, f => f a
  | .panic, _ => .panic
  | .fuelOut, _ => .fuelOut

instance : Monad Res where
  pure := Res.ok
  bind := Res.bind

/-- The host services the evaluator delegates to: environment variables,
the clock, fmt.Sprintf, regexp, and the float64 approximations of
math.Sqrt / math.Pow, all opaque to the claims proved here. -/
structure Env where
  getenv : String → String
  nowEpoch : ℤ
  nowRFC : String
  sprintfFn : String → List Value → String
  regexpCompile : String → Option (String → Bool)
  sqrtApprox : ℚ → ℚ
  powFn : GoFloat → GoFloat → GoFloat
  formatFloat : GoFloat → String

/-- math.Sqrt: NaN for negative finite values, -Inf and NaN; +Inf fixed;
the float64 approximation of the square root otherwise. -/
def goSqrt (env : Env) : GoFloat → GoFloat
  | .finite q => if q < 0 then .nan else .finite (env.sqrtApprox q)
  | .posInf => .posInf
  | _ => .nan

/-- time.Time zero value .Unix() (the starttime branch uses the zero time). -/
def zeroTimeUnix : ℤ := -62135596800

/-- time.Time zero value formatted as RFC3339. -/
def zeroTimeRFC : String := "0001-01-01T00:00:00Z"

/-- float64 builtin (src/eval.go) on the evaluated argument value. -/
def float64Core : Value → GoFloat
  | .vbool b => if b then .finite 1 else .finite 0
  | .vint m => .finite m
  | .vint64 m => .finite m
  | .vfloat f => f
  | .vstr s0 =>
      match goParseFloat (stringer s0) with
      | some f => f
      | none => .nan
  | .vnil => .nan

/-- int builtin (src/eval.go) on the evaluated argument value: Atoi first,
ParseFloat second for strings; float64 truncates via the int conversion. -/
def intCore : Value → Value
  | .vbool b => .vint (if b then 1 else 0)
  | .vint m => .vint m
  | .vint64 m => .vint m
  | .vfloat f => .vint (goTruncInt f)
  | .vstr s0 =>
      let s1 := stringer s0
      match goAtoi s1 with
      | some m => .vint m
      | none =>
          match goParseFloat s1 with
          | some f => .vint (goTruncInt f)
          | none => FloatError
  | .vnil => FloatError

/-- isNaN builtin (src/eval.go) on the evaluated argument value. -/
def isNaNCore : Value → Bool
  | .vbool _ => false
  | .vint m => goIsNaN (.finite m)
  | .vint64 m => goIsNaN (.finite m)
  | .vfloat f => goIsNaN f
  | .vstr s0 =>
      match goParseFloat (stringer s0) with
      | some f => goIsNaN f
      | none => true
  | .vnil => true

/-- The f64Value closure inside isBetween: numeric coercion that also maps
NaN and the infinities (and the empty string) to FloatError. -/
def f64Value : Value → GoFloat
  | .vint m => .finite m
  | .vstr v =>
      let s := stringer v
      if s = "" then .nan
      else
        match goParseFloat s with
        | some f => if goIsNaN f ∨ goIsInf f then .nan else f
        | none => .nan
  | .vfloat v => if goIsNaN v ∨ goIsInf v then .nan else v
  | _ => .nan

/-- isBetween builtin on the three getArg-normalised operand values. -/
def isBetweenCore (a b c : Value) : Bool :=
  goGe (f64Value a) (f64Value b) && goLe (f64Value a) (f64Value c)

/-- Operand coercion in pow: int, float64 or string via floater. -/
def powCoerce : Value → GoFloat
  | .vint m => .finite m
  | .vfloat f => f
  | .vstr v => floater (stringer v)
  | _ => .nan

/-- Operand coercion in round.  Unlike pow, the string case applies floater
without another stringer pass (getArg already stripped the quotes). -/
def roundCoerce : Value → GoFloat
  | .vint m => .finite m
  | .vfloat f => f
  | .vstr v => floater v
  | _ => .nan

/-- round builtin (src/eval.go) on the two getArg-normalised operands:
math.Round(fa * 10^int(fb)) / 10^int(fb). -/
def roundCore (a b : Value) : GoFloat :=
  let fa := roundCoerce a
  let fb := roundCoerce b
  let x := goPow10 (goTruncInt fb)
  goDiv (goRound (goMul fa x)) x

/-- ifExpr strips quotes from a selected branch when it is a string. -/
def stripIfStr : Value → Value
  | .vstr s => .vstr (stringer s)
  | v => v

/-- Go string slice s[lo:hi] on the character list; none is the runtime
panic for indices out of range or lo > hi. -/
def goSlice (s : String) (lo hi : ℤ) : Option String :=
  if 0 ≤ lo ∧ lo ≤ hi ∧ hi ≤ (s.data.length : ℤ) then
    some (String.mk ((s.data.drop lo.toNat).take (hi - lo).toNat))
  else none

/-- substr builtin (src/eval.go) on the three getArg-normalised operands,
given that the first is the string s.  Mirrors the source line by line;
none models the slice panic (reachable only for a negative start with a
cut length below -1). -/
def substrCore (s : String) (startPos cutLen : Value) : Option String :=
  if s = "" then some ""
  else
    let startP : ℤ :=
      match startPos with
      | .vint sp => sp
      | .vfloat sp => goTruncInt sp
      | _ => 0
    let cutL0 : ℤ :=
      match cutLen with
      | .vint cl => cl
      | .vfloat cl => goTruncInt cl
      | _ => 0
    if cutL0 = 0 then some ""
    else
      let l : ℤ := s.data.length
      let cutL1 := if l < cutL0 then l else cutL0
      if l ≤ |startP| then some ""
      else if 0 ≤ startP ∧ cutL1 = -1 then goSlice s startP l
      else if startP < 0 then
        if cutL1 = -1 then goSlice s (l + startP) l
        else
          let x := l + startP
          let cutL2 := if l ≤ x + cutL1 then l - x else cutL1
          goSlice s x (x + cutL2)
      else
        if startP + cutL1 < startP then some ""
        else
          let cutL2 := if l ≤ startP + cutL1 then l - startP else cutL1
          goSlice s startP (startP + cutL2)

/-- time builtin (src/eval.go) on the two getArg-normalised operands. -/
def timeCore (env : Env) (a b : Value) : Value :=
  match a with
  | .vstr left =>
      match stringer left with
      | "" => timeFormat env.nowEpoch env.nowRFC b
      | "now" => timeFormat env.nowEpoch env.nowRFC b
      | "starttime" => timeFormat zeroTimeUnix zeroTimeRFC b
      | _ => .vstr ""
  | _ => .vstr ""
where
  /-- Inner format dispatch shared by the now/starttime branches. -/
  timeFormat (epoch : ℤ) (rfc : String) : Value → Value
    | .vstr right =>
        match stringer right with
        | "" => .vint64 epoch
        | "epoch" => .vint64 epoch
        | "rfc3339" => .vstr rfc
        | "RFC3339" => .vstr rfc
        | _ => .vstr ""
    | _ => .vstr ""

/-!
The interpreter.  Each Go method becomes one Lean function; all of them are
fuelled (structural recursion on the fuel), so that closed evaluations
reduce in the kernel.  Every function consumes one unit of fuel per call;
fuelOut never occurs once the fuel exceeds the total number of calls.
-/

mutual

/-- eval (src/eval.go): the recursive interpreter. -/
def evalE (env : Env) : ℕ → Expr → St → Res (Value × St)
  | 0, _, _ => .fuelOut
  | n + 1, e, st =>
    match e with
    | .unary op x =>
        match op with
        | .uadd => do
            let (xv, st1) ← evalE env n x st
            match xv with
            | .vint m => .ok (.vint m, st1)
            | .vfloat f => .ok (.vfloat f, st1)
            | _ => .ok (FloatError, st1)
        | .usub => do
            let (xv, st1) ← evalE env n x st
            match xv with
            | .vint m => .ok (.vint (-1 * m), st1)
            | .vfloat f => .ok (.vfloat (goMul (.finite (-1)) f), st1)
            | _ => .ok (FloatError, st1)
        | .uother => .ok (FloatError, st)
    | .paren x => evalE env n x st
    | .binary op x y => do
        let (l, st1) ← getArgE env n x st
        let (r, st2) ← getArgE env n y st1
        .ok (evalBinaryOp op l r, st2)
    | .litInt s => .ok (.vint (atoiLenient s), st)
    | .litFloat f => .ok (.vfloat f, st)
    | .litStr s => .ok (.vstr s, st)
    | .litOther => .ok (FloatError, st)
    | .ident name =>
        if name = "true" then .ok (.vbool true, st)
        else if name = "false" then .ok (.vbool false, st)
        else
          match lookupSt st name with
          | some v => .ok (v, st)
          | none => .ok (FloatError, st)
    | .call fn args =>
        match fn with
        | "abs" => absE env n args st
        | "avg" => avgMaxMinE env 3 n args st
        | "env" => envE env n args st
        | "float64" => float64E env n args st
        | "ifExpr" => ifExprE env n args st
        | "int" => intE env n args st
        | "isBetween" => isBetweenE env n args st
        | "isNaN" => isNaNE env n args st
        | "max" => avgMaxMinE env 2 n args st
        | "min" => avgMaxMinE env 1 n args st
        | "pow" => powE env n args st
        | "regexpMatch" => regexpMatchE env n args st
        | "round" => roundE env n args st
        | "setVal" => do
            let stF ← setValLoop env n args st
            .ok (.vnil, stF)
        | "sqrt" => sqrtE env n args st
        | "substr" => substrE env n args st
        | "sprintf" => sprintfE env n args st
        | "time" => timeE env n args st
        | "val" => valE env n args st
        | _ => .ok (FloatError, st)

/-- getArg (src/eval.go): evaluate and normalise an argument node. -/
def getArgE (env : Env) : ℕ → Expr → St → Res (Value × St)
  | 0, _, _ => .fuelOut
  | n + 1, e, st => do
      let (v, st1) ← evalE env n e st
      .ok (getArgV v, st1)

/-- abs (src/eval.go). -/
def absE (env : Env) : ℕ → List Expr → St → Res (Value × St)
  | 0, _, _ => .fuelOut
  | n + 1, args, st =>
    match args with
    | [a] => do
        let (x, st1) ← getArgE env n a st
        match x with
        | .vint m => .ok (.vfloat (goAbs (.finite m)), st1)
        | .vfloat f => .ok (.vfloat (goAbs f), st1)
        | .vstr s0 =>
            match goParseFloat (stringer s0) with
            | some f => .ok (.vfloat (goAbs f), st1)
            | none => .ok (FloatError, st1)
        | _ => .ok (FloatError, st1)
    | _ => .ok (FloatError, st)

/-- avgMaxMin (src/eval.go): flag 1 = min, 2 = max, 3 = avg. -/
def avgMaxMinE (env : Env) (flag : ℕ) : ℕ → List Expr → St → Res (Value × St)
  | 0, _, _ => .fuelOut
  | n + 1, args, st =>
    if args.isEmpty then .ok (FloatError, st)
    else do
      let (floats, st1) ← collectF env n args st
      if floats.length < 1 then .ok (FloatError, st1)
      else
        let val : GoFloat :=
          match flag, floats with
          | 1, f0 :: rest => rest.foldl goMin f0
          | 2, f0 :: rest => rest.foldl goMax f0
          | 3, fs => goDiv (fs.foldl goAdd (.finite 0)) (.finite fs.length)
          | _, _ => .finite 0
        .ok (.vfloat val, st1)

/-- The collection loop of avgMaxMin: getArg each argument in order,
keeping ints, floats and strings whose floater value is not NaN. -/
def collectF (env : Env) : ℕ → List Expr → St → Res (List GoFloat × St)
  | 0, _, _ => .fuelOut
  | n + 1, args, st =>
    match args with
    | [] => .ok ([], st)
    | a :: rest => do
        let (f, st1) ← getArgE env n a st
        let (tail, st2) ← collectF env n rest st1
        match f with
        | .vint m => .ok (GoFloat.finite m :: tail, st2)
        | .vfloat g => .ok (g :: tail, st2)
        | .vstr s0 =>
            let g := floater (stringer s0)
            if goIsNaN g then .ok (tail, st2) else .ok (g :: tail, st2)
        | _ => .ok (tail, st2)

/-- env (src/eval.go): environment variable read. -/
def envE (env : Env) : ℕ → List Expr → St → Res (Value × St)
  | 0, _, _ => .fuelOut
  | n + 1, args, st =>
    match args with
    | [] => .ok (.vstr "", st)
    | a :: _ => do
        let (s, st1) ← evalE env n a st
        match s with
        | .vstr v => .ok (.vstr (env.getenv (stringer v)), st1)
        | _ => .ok (.vstr "", st1)

/-- float64 (src/eval.go). -/
def float64E (env : Env) : ℕ → List Expr → St → Res (Value × St)
  | 0, _, _ => .fuelOut
  | n + 1, args, st =>
    match args with
    | [] => .ok (FloatError, st)
    | a :: _ => do
        let (s, st1) ← evalE env n a st
        .ok (.vfloat (float64Core s), st1)

/-- ifExpr (src/eval.go): all three arguments are evaluated first. -/
def ifExprE (env : Env) : ℕ → List Expr → St → Res (Value × St)
  | 0, _, _ => .fuelOut
  | n + 1, args, st =>
    match args with
    | [c, a, b] => do
        let (cond, st1) ← getArgE env n c st
        let (tv, st2) ← getArgE env n a st1
        let (fv, st3) ← getArgE env n b st2
        match cond with
        | .vbool true => .ok (stripIfStr tv, st3)
        | .vbool false => .ok (stripIfStr fv, st3)
        | _ => .ok (FloatError, st3)
    | _ => .ok (FloatError, st)

/-- int (src/eval.go). -/
def intE (env : Env) : ℕ → List Expr → St → Res (Value × St)
  | 0, _, _ => .fuelOut
  | n + 1, args, st =>
    match args with
    | [] => .ok (FloatError, st)
    | a :: _ => do
        let (s, st1) ← evalE env n a st
        .ok (intCore s, st1)

/-- isBetween (src/eval.go). -/
def isBetweenE (env : Env) : ℕ → List Expr → St → Res (Value × St)
  | 0, _, _ => .fuelOut
  | n + 1, args, st =>
    match args with
    | [a, b, c] => do
        let (tv, st1) ← getArgE env n a st
        let (fv, st2) ← getArgE env n b st1
        let (tv2, st3) ← getArgE env n c st2
        .ok (.vbool (isBetweenCore tv fv tv2), st3)
    | _ => .ok (.vbool false, st)

/-- isNaN (src/eval.go). -/
def isNaNE (env : Env) : ℕ → List Expr → St → Res (Value × St)
  | 0, _, _ => .fuelOut
  | n + 1, args, st =>
    match args with
    | [a] => do
        let (s, st1) ← evalE env n a st
        .ok (.vbool (isNaNCore s), st1)
    | _ => .ok (.vbool true, st)

/-- pow (src/eval.go); the float64 power itself is the Env oracle. -/
def powE (env : Env) : ℕ → List Expr → St → Res (Value × St)
  | 0, _, _ => .fuelOut
  | n + 1, args, st =>
    match args with
    | [a, b] => do
        let (av, st1) ← getArgE env n a st
        let (bv, st2) ← getArgE env n b st1
        .ok (.vfloat (env.powFn (powCoerce av) (powCoerce bv)), st2)
    | _ => .ok (FloatError, st)

/-- regexpMatch (src/eval.go); pattern compilation and matching are the
Env oracle.  A non-string pattern returns before the second argument is
evaluated. -/
def regexpMatchE (env : Env) : ℕ → List Expr → St → Res (Value × St)
  | 0, _, _ => .fuelOut
  | n + 1, args, st =>
    match args with
    | [p, q] => do
        let (tmp, st1) ← getArgE env n p st
        match tmp with
        | .vstr pat => do
            let (tmp2, st2) ← getArgE env n q st1
            let str? : Option String :=
              match tmp2 with
              | .vstr v => some v
              | .vint m => some (toString m)
              | .vbool bb => some (if bb then "true" else "false")
              | .vfloat f => some (env.formatFloat f)
              | _ => none
            match str? with
            | none => .ok (.vbool false, st2)
            | some str =>
                match env.regexpCompile pat with
                | none => .ok (.vbool false, st2)
                | some matcher => .ok (.vbool (matcher str), st2)
        | _ => .ok (.vbool false, st1)
    | _ => .ok (.vbool false, st)

/-- round (src/eval.go). -/
def roundE (env : Env) : ℕ → List Expr → St → Res (Value × St)
  | 0, _, _ => .fuelOut
  | n + 1, args, st =>
    match args with
    | [a, b] => do
        let (av, st1) ← getArgE env n a st
        let (bv, st2) ← getArgE env n b st1
        .ok (.vfloat (roundCore av bv), st2)
    | _ => .ok (FloatError, st)

/-- The loop of setVal (src/eval.go): consumes arguments in key/value
pairs; a non-string or empty key advances by one; a trailing unpaired
argument is still evaluated.  The nil map is initialised as soon as a
string key is seen. -/
def setValLoop (env : Env) : ℕ → List Expr → St → Res St
  | 0, _, _ => .fuelOut
  | n + 1, args, st =>
    match args with
    | [] => .ok st
    | [x] => do
        let (_, st1) ← getArgE env n x st
        .ok st1
    | x :: y :: rest => do
        let (xv, st1) ← getArgE env n x st
        match xv with
        | .vstr name0 =>
            let st2 : St := some (st1.getD [])
            let name := stringer name0
            if name = "" then setValLoop env n (y :: rest) st2
            else do
              let (value, st3) ← getArgE env n y st2
              let st4 : St :=
                match value with
                | .vstr v => insertSt st3 name (.vstr (stringer v))
                | .vbool _ => insertSt st3 name value
                | .vint _ => insertSt st3 name value
                | .vfloat _ => insertSt st3 name value
                | _ => st3
              setValLoop env n rest st4
        | _ => setValLoop env n (y :: rest) st1

/-- sqrt (src/eval.go): note the missing string case (compare the test
TestSqrt and the variant source, which both expect numeric strings). -/
def sqrtE (env : Env) : ℕ → List Expr → St → Res (Value × St)
  | 0, _, _ => .fuelOut
  | n + 1, args, st =>
    match args with
    | [a] => do
        let (x, st1) ← getArgE env n a st
        match x with
        | .vint m => .ok (.vfloat (goSqrt env (.finite m)), st1)
        | .vfloat f => .ok (.vfloat (goSqrt env f), st1)
        | _ => .ok (FloatError, st1)
    | _ => .ok (FloatError, st)

/-- substr (src/eval.go). -/
def substrE (env : Env) : ℕ → List Expr → St → Res (Value × St)
  | 0, _, _ => .fuelOut
  | n + 1, args, st =>
    match args with
    | [a, b, c] => do
        let (sv, st1) ← getArgE env n a st
        let (spv, st2) ← getArgE env n b st1
        let (clv, st3) ← getArgE env n c st2
        match sv with
        | .vstr s =>
            match substrCore s spv clv with
            | some r => .ok (.vstr r, st3)
            | none => .panic
        | _ => .ok (.vstr "", st3)
    | _ => .ok (.vstr "", st)

/-- sprintf (src/eval.go): format through getArg, parameters through eval. -/
def sprintfE (env : Env) : ℕ → List Expr → St → Res (Value × St)
  | 0, _, _ => .fuelOut
  | n + 1, args, st =>
    match args with
    | [] => .ok (FloatError, st)
    | [a] => do
        let (v, st1) ← getArgE env n a st
        match v with
        | .vstr f => .ok (.vstr f, st1)
        | _ => .ok (FloatError, st1)
    | a :: rest => do
        let (v, st1) ← getArgE env n a st
        let format := match v with | .vstr f => f | _ => ""
        let (params, st2) ← sprintfParams env n rest st1
        .ok (.vstr (env.sprintfFn format params), st2)

/-- The parameter loop of sprintf: plain eval, no getArg coercion. -/
def sprintfParams (env : Env) : ℕ → List Expr → St → Res (List Value × St)
  | 0, _, _ => .fuelOut
  | n + 1, args, st =>
    match args with
    | [] => .ok ([], st)
    | a :: rest => do
        let (v, st1) ← evalE env n a st
        let (tail, st2) ← sprintfParams env n rest st1
        .ok (v :: tail, st2)

/-- time (src/eval.go). -/
def timeE (env : Env) : ℕ → List Expr → St → Res (Value × St)
  | 0, _, _ => .fuelOut
  | n + 1, args, st =>
    match args with
    | [a, b] => do
        let (av, st1) ← getArgE env n a st
        let (bv, st2) ← getArgE env n b st1
        .ok (timeCore env av bv, st2)
    | _ => .ok (.vstr "", st)

/-- val (src/eval.go): the wrong arity and the nil map return the empty
string before the argument is evaluated. -/
def valE (env : Env) : ℕ → List Expr → St → Res (Value × St)
  | 0, _, _ => .fuelOut
  | n + 1, args, st =>
    match args, st with
    | [a], some m => do
        let (s, st1) ← evalE env n a (some m)
        match s with
        | .vstr name =>
            match lookupSt st1 (stringer name) with
            | some v => .ok (v, st1)
            | none => .ok (.vstr "", st1)
        | _ => .ok (.vstr "", st1)
    | _, _ => .ok (.vstr "", st)

end

/-- Sequential getArg evaluation of an argument list (the reference form
the avg/min/max bridge is stated against). -/
def getArgsSeq (env : Env) : ℕ → List Expr → St → Res (List Value × St)
  | 0, _, _ => .fuelOut
  | n + 1, [], st => .ok ([], st)
  | n + 1, a :: rest, st => do
      let (v, st1) ← getArgE env n a st
      let (tail, st2) ← getArgsSeq env n rest st1
      .ok (v :: tail, st2)

/-- A binary operand is numeric when it is an int or a float64. -/
def isNumericV : Value → Bool
  | .vint _ => true
  | .vfloat _ => true
  | _ => false

/-- The divisor values the division operator sends to +Inf: the integer 0
and any float64 comparing == to 0. -/
def isZeroDivisor : Value → Bool
  | .vint r => r == 0
  | .vfloat f => GoFloat.goEq f (.finite 0)
  | _ => false

/-- Negation of a boolean result value (other values unchanged); used to
state that != is the negation of ==. -/
def negValueBool : Value → Value
  | .vbool b => .vbool (!b)
  | v => v

/-- Modelled from the spec wording for avg/min/max: the usable numeric
reading of one argument value; none for silently skipped arguments. -/
def usableFloat : Value → Option GoFloat
  | .vint m => some (.finite m)
  | .vfloat g => some g
  | .vstr s =>
      let g := floater (stringer s)
      if GoFloat.goIsNaN g then none else some g
  | _ => none

/-- Modelled from the spec wording for avg/min/max: reduce the usable
arguments (min fold, max fold, or mean), NaN when none are usable. -/
def specReduce (flag : ℕ) (fs : List GoFloat) : GoFloat :=
  match fs with
  | [] => .nan
  | f0 :: rest =>
      match flag with
      | 1 => rest.foldl GoFloat.goMin f0
      | 2 => rest.foldl GoFloat.goMax f0
      | 3 => GoFloat.goDiv ((f0 :: rest).foldl GoFloat.goAdd (.finite 0))
          (.finite ((f0 :: rest).length : ℚ))
      | _ => .finite 0

/-- The values setVal stores (bool, int, float64, string). -/
def isStorable : Value → Bool
  | .vbool _ => true
  | .vint _ => true
  | .vfloat _ => true
  | .vstr _ => true
  | _ => false

/-- A concrete environment for the closed evaluations of the claims: the
host services are fixed arbitrarily (none of them is reached by the inputs
evaluated below except the clock). -/
def dEnv : Env where
  getenv := fun _ => ""
  nowEpoch := 1423542512
  nowRFC := "2020-07-02T07:39:10+02:00"
  sprintfFn := fun _ _ => ""
  regexpCompile := fun _ => none
  sqrtApprox := fun _ => 0
  powFn := fun _ _ => .nan
  formatFloat := fun _ => ""

/-! Bridge lemmas: the kernel-reducible rational operations agree with the
ring operations of ℚ. -/

theorem ratNeg_eq (a : ℚ) : ratNeg a = -a := by
  unfold ratNeg
  rw [Rat.mkRat_eq_div]
  push_cast
  rw [neg_div, Rat.num_div_den]

theorem ratAdd_eq (a b : ℚ) : ratAdd a b = a + b := by
  unfold ratAdd
  have ha : ((a.den : ℚ)) ≠ 0 := by exact_mod_cast a.den_ne_zero
  have hb : ((b.den : ℚ)) ≠ 0 := by exact_mod_cast b.den_ne_zero
  rw [Rat.divInt_eq_div]
  conv_rhs => rw [← Rat.num_div_den a, ← Rat.num_div_den b]
  push_cast
  field_simp

theorem ratMul_eq (a b : ℚ) : ratMul a b = a * b := by
  unfold ratMul
  have ha : ((a.den : ℚ)) ≠ 0 := by exact_mod_cast a.den_ne_zero
  have hb : ((b.den : ℚ)) ≠ 0 := by exact_mod_cast b.den_ne_zero
  rw [Rat.divInt_eq_div]
  conv_rhs => rw [← Rat.num_div_den a, ← Rat.num_div_den b]
  push_cast
  field_simp

theorem ratDiv_eq (a b : ℚ) : ratDiv a b = a / b := by
  unfold ratDiv
  have ha : ((a.den : ℚ)) ≠ 0 := by exact_mod_cast a.den_ne_zero
  have hb : ((b.den : ℚ)) ≠ 0 := by exact_mod_cast b.den_ne_zero
  rw [Rat.divInt_eq_div]
  rcases eq_or_ne b 0 with hb0 | hb0
  · subst hb0
    simp
  · have hnum : (b.num : ℚ) ≠ 0 := by
      exact_mod_cast Rat.num_ne_zero.mpr hb0
    conv_rhs => rw [← Rat.num_div_den a, ← Rat.num_div_den b]
    push_cast
    field_simp

/-! Quote stripping is idempotent. -/

theorem head?_dropWhile_false (p : Char → Bool) (l : List Char) (a : Char)
    (h : (l.dropWhile p).head? = some a) : p a = false := by
  induction l with
  | nil => simp [List.dropWhile] at h
  | cons x xs ih =>
      by_cases hp : p x
      · rw [List.dropWhile_cons_of_pos hp] at h
        exact ih h
      · rw [List.dropWhile_cons_of_neg hp] at h
        simp only [List.head?_cons, Option.some.injEq] at h
        subst h
        simpa using hp

theorem getLast?_dropWhile (p : Char → Bool) (l : List Char)
    (h : l.dropWhile p ≠ []) : (l.dropWhile p).getLast? = l.getLast? := by
  induction l with
  | nil => simp [List.dropWhile] at h
  | cons x xs ih =>
      by_cases hp : p x
      · rw [List.dropWhile_cons_of_pos hp] at h ⊢
        have hxs : xs ≠ [] := by
          intro he
          rw [he] at h
          simp [List.dropWhile] at h
        rw [ih h]
        cases xs with
        | nil => exact absurd rfl hxs
        | cons y ys => rw [List.getLast?_cons_cons]
      · rw [List.dropWhile_cons_of_neg hp]

theorem trimQ_getLast_ne (l : List Char) (a : Char)
    (h : (trimQ l).reverse.head? = some a) : (a = '"') = False := by
  unfold trimQ at h
  rw [List.reverse_reverse] at h
  have := head?_dropWhile_false (· = '"') (l.dropWhile (· = '"')).reverse a h
  simpa using this

theorem trimQ_head_ne (l : List Char) (a : Char)
    (h : (trimQ l).head? = some a) : (a = '"') = False := by
  unfold trimQ at h
  set A := l.dropWhile (· = '"') with hA
  have hne : A.reverse.dropWhile (· = '"') ≠ [] := by
    intro he
    rw [he] at h
    simp at h
  rw [List.head?_reverse, getLast?_dropWhile _ _ hne, List.getLast?_reverse] at h
  have := head?_dropWhile_false (· = '"') l a h
  simpa using this

theorem stringer_eq_trimQ (s : String) (h1 : ¬ s.length < 1)
    (h2 : s.data.head? = some '"' ∧ s.data.reverse.head? = some '"') :
    stringer s = String.mk (trimQ s.data) := by
  unfold stringer
  rw [if_neg h1, if_pos h2]
  rfl

theorem stringer_idem (s : String) : stringer (stringer s) = stringer s := by
  by_cases h1 : s.length < 1
  · have hs : stringer s = "" := by unfold stringer; rw [if_pos h1]
    rw [hs]
    decide
  · by_cases h2 : s.data.head? = some '"' ∧ s.data.reverse.head? = some '"'
    · rw [stringer_eq_trimQ s h1 h2]
      set t := String.mk (trimQ s.data) with ht
      by_cases h3 : t.length < 1
      · have hst : stringer t = "" := by unfold stringer; rw [if_pos h3]
        have hlen : (trimQ s.data).length < 1 := by rw [ht] at h3; exact h3
        have hd : trimQ s.data = [] := List.length_eq_zero.mp (by omega)
        have ht0 : t = "" := by rw [ht, hd]
        rw [hst, ht0]
      · have h4 : ¬ (t.data.head? = some '"' ∧ t.data.reverse.head? = some '"') := by
          intro hcon
          have hd : t.data = trimQ s.data := by rw [ht]
          rw [hd] at hcon
          have := trimQ_head_ne s.data '"' hcon.1
          simp at this
        unfold stringer
        rw [if_neg h3, if_neg h4]
    · have hs : stringer s = s := by unfold stringer; rw [if_neg h1, if_neg h2]
      rw [hs, hs]

/-- getArg never produces a string that still carries outer quotes. -/
theorem getArgV_str_fixed (v : Value) (s : String) (h : getArgV v = .vstr s) :
    stringer s = s := by
  cases v <;> simp [getArgV, FloatError] at h
  rw [← h]
  exact stringer_idem _

/-! Variable-store lemmas. -/

theorem find?_filter_ne (m : VarMap) (k k' : String) (h : k' ≠ k) :
    (m.filter (fun p => p.1 != k)).find? (fun p => p.1 == k')
      = m.find? (fun p => p.1 == k') := by
  induction m with
  | nil => rfl
  | cons x xs ih =>
      by_cases hx : x.1 = k
      · have h1 : (x.1 != k) = false := by simp [hx]
        have h2 : (x.1 == k') = false := by
          simp only [beq_eq_false_iff_ne, ne_eq]
          rw [hx]
          exact fun he => h he.symm
        rw [List.filter_cons, h1, List.find?_cons, h2]
        exact ih
      · have h1 : (x.1 != k) = true := by simp [hx]
        rw [List.filter_cons, h1, if_pos rfl]
        rw [List.find?_cons, List.find?_cons]
        cases hx2 : (x.1 == k') with
        | true => rfl
        | false => exact ih

theorem lookupVar_insertVar (m : VarMap) (k k' : String) (v : Value) :
    lookupVar (insertVar m k v) k'
      = if k' = k then some v else lookupVar m k' := by
  unfold lookupVar insertVar
  by_cases h : k' = k
  · subst h
    rw [if_pos rfl, List.find?_cons]
    simp
  · rw [if_neg h, List.find?_cons]
    have : (k == k') = false := by
      simp only [beq_eq_false_iff_ne, ne_eq]
      exact fun he => h he.symm
    rw [this, find?_filter_ne m k k' h]

theorem keysPres_refl (st : St) : keysPres st st := fun _ h => h

theorem keysPres_trans {s1 s2 s3 : St} (h1 : keysPres s1 s2)
    (h2 : keysPres s2 s3) : keysPres s1 s3 := fun k h => h2 k (h1 k h)

theorem keysPres_init (st : St) : keysPres st (some (st.getD [])) := by
  intro k h
  cases st with
  | none => simp [lookupSt] at h
  | some m => exact h

theorem keysPres_insertSt (st : St) (k : String) (v : Value) :
    keysPres st (insertSt st k v) := by
  intro k' h
  cases st with
  | none => simp [lookupSt] at h
  | some m =>
      simp only [lookupSt, insertSt, Option.getD]
      rw [lookupVar_insertVar]
      by_cases he : k' = k
      · rw [if_pos he]; rfl
      · rw [if_neg he]; exact h

/-! Evaluation never deletes a variable: every interpreter function
preserves the presence of every key of the store.  One induction on the
fuel covers the whole mutual block. -/

theorem bind_okX {α β : Type} {x : Res α} {f : α → Res β} {b : β}
    (h : x >>= f = .ok b) : ∃ a, x = .ok a ∧ f a = .ok b := by
  cases x with
  | ok a => exact ⟨a, rfl, h⟩
  | panic => simp [Bind.bind, Res.bind] at h
  | fuelOut => simp [Bind.bind, Res.bind] at h

theorem interpPres (env : Env) : ∀ n : ℕ,
    (∀ e st out, evalE env n e st = .ok out → keysPres st out.2)
    ∧ (∀ e st out, getArgE env n e st = .ok out → keysPres st out.2)
    ∧ (∀ args st out, absE env n args st = .ok out → keysPres st out.2)
    ∧ (∀ flag args st out, avgMaxMinE env flag n args st = .ok out → keysPres st out.2)
    ∧ (∀ args st out, collectF env n args st = .ok out → keysPres st out.2)
    ∧ (∀ args st out, envE env n args st = .ok out → keysPres st out.2)
    ∧ (∀ args st out, float64E env n args st = .ok out → keysPres st out.2)
    ∧ (∀ args st out, ifExprE env n args st = .ok out → keysPres st out.2)
    ∧ (∀ args st out, intE env n args st = .ok out → keysPres st out.2)
    ∧ (∀ args st out, isBetweenE env n args st = .ok out → keysPres st out.2)
    ∧ (∀ args st out, isNaNE env n args st = .ok out → keysPres st out.2)
    ∧ (∀ args st out, powE env n args st = .ok out → keysPres st out.2)
    ∧ (∀ args st out, regexpMatchE env n args st = .ok out → keysPres st out.2)
    ∧ (∀ args st out, roundE env n args st = .ok out → keysPres st out.2)
    ∧ (∀ args st out, setValLoop env n args st = .ok out → keysPres st out)
    ∧ (∀ args st out, sqrtE env n args st = .ok out → keysPres st out.2)
    ∧ (∀ args st out, substrE env n args st = .ok out → keysPres st out.2)
    ∧ (∀ args st out, sprintfE env n args st = .ok out → keysPres st out.2)
    ∧ (∀ args st out, sprintfParams env n args st = .ok out → keysPres st out.2)
    ∧ (∀ args st out, timeE env n args st = .ok out → keysPres st out.2)
    ∧ (∀ args st out, valE env n args st = .ok out → keysPres st out.2) := by
  intro n
  induction n with
  | zero =>
      refine ⟨fun e st out h => ?_, fun e st out h => ?_, fun a st out h => ?_,
        fun fl a st out h => ?_, fun a st out h => ?_, fun a st out h => ?_,
        fun a st out h => ?_, fun a st out h => ?_, fun a st out h => ?_,
        fun a st out h => ?_, fun a st out h => ?_, fun a st out h => ?_,
        fun a st out h => ?_, fun a st out h => ?_, fun a st out h => ?_,
        fun a st out h => ?_, fun a st out h => ?_, fun a st out h => ?_,
        fun a st out h => ?_, fun a st out h => ?_, fun a st out h => ?_⟩ <;>
        simp [evalE, getArgE, absE, avgMaxMinE, collectF, envE, float64E,
          ifExprE, intE, isBetweenE, isNaNE, powE, regexpMatchE, roundE,
          setValLoop, sqrtE, substrE, sprintfE, sprintfParams, timeE, valE] at h
  | succ n ih =>
      obtain ⟨ihEval, ihGet, ihAbs, ihAvg, ihCol, ihEnv, ihF64, ihIf, ihInt,
        ihIsb, ihIsn, ihPow, ihRex, ihRound, ihSet, ihSqrt, ihSub, ihSpf,
        ihSpp, ihTime, ihVal⟩ := ih
      refine ⟨?_, ?_, ?_, ?_, ?_, ?_, ?_, ?_, ?_, ?_, ?_, ?_, ?_, ?_, ?_,
        ?_, ?_, ?_, ?_, ?_, ?_⟩
      -- evalE
      · intro e st out h
        cases e with
        | unary op x =>
            simp only [evalE] at h
            cases op with
            | uadd =>
                obtain ⟨⟨xv, st1⟩, hx, h2⟩ := bind_okX h
                have hp := ihEval x st (xv, st1) hx
                repeat' split at h2
                all_goals (cases h2 <;> exact hp)
            | usub =>
                obtain ⟨⟨xv, st1⟩, hx, h2⟩ := bind_okX h
                have hp := ihEval x st (xv, st1) hx
                repeat' split at h2
                all_goals (cases h2 <;> exact hp)
            | uother => cases h; exact keysPres_refl st
        | paren x =>
            simp only [evalE] at h
            exact ihEval x st out h
        | binary op x y =>
            simp only [evalE] at h
            obtain ⟨⟨l, st1⟩, hx, h2⟩ := bind_okX h
            obtain ⟨⟨r, st2⟩, hy, h3⟩ := bind_okX h2
            have p1 := ihGet x st _ hx
            have p2 := ihGet y _ _ hy
            cases h3
            exact keysPres_trans p1 p2
        | litInt s =>
            simp only [evalE] at h
            cases h; exact keysPres_refl st
        | litFloat f =>
            simp only [evalE] at h
            cases h; exact keysPres_refl st
        | litStr s =>
            simp only [evalE] at h
            cases h; exact keysPres_refl st
        | litOther =>
            simp only [evalE] at h
            cases h; exact keysPres_refl st
        | ident name =>
            simp only [evalE] at h
            repeat' split at h
            all_goals (cases h <;> exact keysPres_refl st)
        | call fn args =>
            simp only [evalE] at h
            repeat' split at h
            all_goals first
              | (cases h; exact keysPres_refl st)
              | exact ihAbs args st out h
              | exact ihAvg 3 args st out h
              | exact ihAvg 2 args st out h
              | exact ihAvg 1 args st out h
              | exact ihEnv args st out h
              | exact ihF64 args st out h
              | exact ihIf args st out h
              | exact ihInt args st out h
              | exact ihIsb args st out h
              | exact ihIsn args st out h
              | exact ihPow args st out h
              | exact ihRex args st out h
              | exact ihRound args st out h
              | exact ihSqrt args st out h
              | exact ihSub args st out h
              | exact ihSpf args st out h
              | exact ihTime args st out h
              | exact ihVal args st out h
              | (obtain ⟨stF, h1, h2⟩ := bind_okX h; cases h2;
                 exact ihSet args st stF h1)
      -- getArgE
      · intro e st out h
        simp only [getArgE] at h
        obtain ⟨⟨v, st1⟩, hx, h2⟩ := bind_okX h
        cases h2
        exact ihEval e st (v, st1) hx
      -- absE
      · intro args st out h
        simp only [absE] at h
        split at h
        · obtain ⟨⟨x, st1⟩, hx, h2⟩ := bind_okX h
          have hp := ihGet _ st (x, st1) hx
          repeat' split at h2
          all_goals (cases h2 <;> exact hp)
        · cases h; exact keysPres_refl st
      -- avgMaxMinE
      · intro flag args st out h
        simp only [avgMaxMinE] at h
        split at h
        · cases h; exact keysPres_refl st
        · obtain ⟨⟨floats, st1⟩, hc, h2⟩ := bind_okX h
          have hp := ihCol args st (floats, st1) hc
          split at h2 <;> (cases h2; exact hp)
      -- collectF
      · intro args st out h
        cases args with
        | nil =>
            simp only [collectF] at h
            cases h; exact keysPres_refl st
        | cons a rest =>
            simp only [collectF] at h
            obtain ⟨⟨f, st1⟩, hf, h2⟩ := bind_okX h
            obtain ⟨⟨tail, st2⟩, ht, h3⟩ := bind_okX h2
            have p1 := ihGet a st _ hf
            have p2 := ihCol rest _ _ ht
            have hp := keysPres_trans p1 p2
            repeat' split at h3
            all_goals (cases h3 <;> exact hp)
      -- envE
      · intro args st out h
        simp only [envE] at h
        cases args with
        | nil => cases h; exact keysPres_refl st
        | cons a rest =>
            obtain ⟨⟨v, st1⟩, hx, h2⟩ := bind_okX h
            have hp := ihEval a st (v, st1) hx
            repeat' split at h2
            all_goals (cases h2 <;> exact hp)
      -- float64E
      · intro args st out h
        simp only [float64E] at h
        cases args with
        | nil => cases h; exact keysPres_refl st
        | cons a rest =>
            obtain ⟨⟨v, st1⟩, hx, h2⟩ := bind_okX h
            cases h2
            exact ihEval a st (v, st1) hx
      -- ifExprE
      · intro args st out h
        simp only [ifExprE] at h
        split at h
        · obtain ⟨⟨cond, st1⟩, h1, h⟩ := bind_okX h
          obtain ⟨⟨tv, st2⟩, h2, h⟩ := bind_okX h
          obtain ⟨⟨fv, st3⟩, h3, h⟩ := bind_okX h
          have p1 := ihGet _ st _ h1
          have p2 := ihGet _ _ _ h2
          have p3 := ihGet _ _ _ h3
          have hp := keysPres_trans p1 (keysPres_trans p2 p3)
          repeat' split at h
          all_goals (cases h <;> exact hp)
        · cases h; exact keysPres_refl st
      -- intE
      · intro args st out h
        simp only [intE] at h
        cases args with
        | nil => cases h; exact keysPres_refl st
        | cons a rest =>
            obtain ⟨⟨v, st1⟩, hx, h2⟩ := bind_okX h
            cases h2
            exact ihEval a st (v, st1) hx
      -- isBetweenE
      · intro args st out h
        simp only [isBetweenE] at h
        split at h
        · obtain ⟨⟨tv, st1⟩, h1, h⟩ := bind_okX h
          obtain ⟨⟨fv, st2⟩, h2, h⟩ := bind_okX h
          obtain ⟨⟨tv2, st3⟩, h3, h⟩ := bind_okX h
          have p1 := ihGet _ st _ h1
          have p2 := ihGet _ _ _ h2
          have p3 := ihGet _ _ _ h3
          cases h
          exact keysPres_trans p1 (keysPres_trans p2 p3)
        · cases h; exact keysPres_refl st
      -- isNaNE
      · intro args st out h
        simp only [isNaNE] at h
        split at h
        · obtain ⟨⟨v, st1⟩, hx, h2⟩ := bind_okX h
          cases h2
          exact ihEval _ st (v, st1) hx
        · cases h; exact keysPres_refl st
      -- powE
      · intro args st out h
        simp only [powE] at h
        split at h
        · obtain ⟨⟨av, st1⟩, h1, h⟩ := bind_okX h
          obtain ⟨⟨bv, st2⟩, h2, h⟩ := bind_okX h
          have p1 := ihGet _ st _ h1
          have p2 := ihGet _ _ _ h2
          cases h
          exact keysPres_trans p1 p2
        · cases h; exact keysPres_refl st
      -- regexpMatchE
      · intro args st out h
        simp only [regexpMatchE] at h
        split at h
        · obtain ⟨⟨tmp, st1⟩, h1, h⟩ := bind_okX h
          have hp1 := ihGet _ st _ h1
          split at h
          · obtain ⟨⟨tmp2, st2⟩, h2, h⟩ := bind_okX h
            have p2 := ihGet _ _ _ h2
            have hp := keysPres_trans hp1 p2
            repeat' split at h
            all_goals (cases h <;> exact hp)
          · cases h; exact hp1
        · cases h; exact keysPres_refl st
      -- roundE
      · intro args st out h
        simp only [roundE] at h
        split at h
        · obtain ⟨⟨av, st1⟩, h1, h⟩ := bind_okX h
          obtain ⟨⟨bv, st2⟩, h2, h⟩ := bind_okX h
          have p1 := ihGet _ st _ h1
          have p2 := ihGet _ _ _ h2
          cases h
          exact keysPres_trans p1 p2
        · cases h; exact keysPres_refl st
      -- setValLoop
      · intro args st out h
        rcases args with _ | ⟨x, _ | ⟨y, rest⟩⟩
        · simp only [setValLoop] at h
          cases h; exact keysPres_refl st
        · simp only [setValLoop] at h
          obtain ⟨⟨xv, st1⟩, hx, h2⟩ := bind_okX h
          cases h2
          exact ihGet x st _ hx
        · simp only [setValLoop] at h
          obtain ⟨⟨xv, st1⟩, hx, h2⟩ := bind_okX h
          have hp1 := ihGet x st _ hx
          split at h2
          · split at h2
            · exact keysPres_trans hp1 (keysPres_trans (keysPres_init st1)
                (ihSet (y :: rest) _ out h2))
            · obtain ⟨⟨value, st3⟩, hv, h3⟩ := bind_okX h2
              have hp2 := ihGet y _ _ hv
              have hchain := keysPres_trans hp1
                (keysPres_trans (keysPres_init st1) hp2)
              repeat' split at h3
              all_goals first
                | exact keysPres_trans hchain (keysPres_trans
                    (keysPres_insertSt st3 _ _) (ihSet rest _ out h3))
                | exact keysPres_trans hchain (ihSet rest _ out h3)
          · exact keysPres_trans hp1 (ihSet (y :: rest) _ out h2)
      -- sqrtE
      · intro args st out h
        simp only [sqrtE] at h
        split at h
        · obtain ⟨⟨x, st1⟩, hx, h2⟩ := bind_okX h
          have hp := ihGet _ st (x, st1) hx
          repeat' split at h2
          all_goals (cases h2 <;> exact hp)
        · cases h; exact keysPres_refl st
      -- substrE
      · intro args st out h
        simp only [substrE] at h
        split at h
        · obtain ⟨⟨sv, st1⟩, h1, h⟩ := bind_okX h
          obtain ⟨⟨spv, st2⟩, h2, h⟩ := bind_okX h
          obtain ⟨⟨clv, st3⟩, h3, h⟩ := bind_okX h
          have p1 := ihGet _ st _ h1
          have p2 := ihGet _ _ _ h2
          have p3 := ihGet _ _ _ h3
          have hp := keysPres_trans p1 (keysPres_trans p2 p3)
          repeat' split at h
          all_goals (cases h <;> exact hp)
        · cases h; exact keysPres_refl st
      -- sprintfE
      · intro args st out h
        simp only [sprintfE] at h
        split at h
        · cases h; exact keysPres_refl st
        · obtain ⟨⟨v, st1⟩, h1, h⟩ := bind_okX h
          have hp := ihGet _ st _ h1
          repeat' split at h
          all_goals (cases h <;> exact hp)
        · obtain ⟨⟨v, st1⟩, h1, h⟩ := bind_okX h
          obtain ⟨⟨params, st2⟩, h2, h⟩ := bind_okX h
          have p1 := ihGet _ st _ h1
          have p2 := ihSpp _ _ _ h2
          cases h
          exact keysPres_trans p1 p2
      -- sprintfParams
      · intro args st out h
        cases args with
        | nil =>
            simp only [sprintfParams] at h
            cases h; exact keysPres_refl st
        | cons a rest =>
            simp only [sprintfParams] at h
            obtain ⟨⟨v, st1⟩, h1, h⟩ := bind_okX h
            obtain ⟨⟨tail, st2⟩, h2, h⟩ := bind_okX h
            have p1 := ihEval a st _ h1
            have p2 := ihSpp rest _ _ h2
            cases h
            exact keysPres_trans p1 p2
      -- timeE
      · intro args st out h
        simp only [timeE] at h
        split at h
        · obtain ⟨⟨av, st1⟩, h1, h⟩ := bind_okX h
          obtain ⟨⟨bv, st2⟩, h2, h⟩ := bind_okX h
          have p1 := ihGet _ st _ h1
          have p2 := ihGet _ _ _ h2
          cases h
          exact keysPres_trans p1 p2
        · cases h; exact keysPres_refl st
      -- valE
      · intro args st out h
        simp only [valE] at h
        split at h
        · obtain ⟨⟨s, st1⟩, hs, h2⟩ := bind_okX h
          have hp := ihEval _ _ _ hs
          repeat' split at h2
          all_goals (cases h2 <;> exact hp)
        · cases h; exact keysPres_refl st


/-- C1: the != operator on a Float left operand and an Int right operand
returns the result of the equality check l == float64(r) instead of the
inequality; every other supported operand-type combination of != (Int!=Int,
Int!=Float, Float!=Float, Bool!=Bool, String!=String) returns the true
inequality, i.e. the boolean negation of the == result. -/
theorem c1_neq_float_int_is_equality :
    (∀ (l : GoFloat) (r : ℤ),
        evalBinaryOp .neq (.vfloat l) (.vint r)
          = evalBinaryOp .eql (.vfloat l) (.vint r))
    ∧ (∀ a b : ℤ, evalBinaryOp .neq (.vint a) (.vint b)
          = negValueBool (evalBinaryOp .eql (.vint a) (.vint b)))
    ∧ (∀ (a : ℤ) (g : GoFloat), evalBinaryOp .neq (.vint a) (.vfloat g)
          = negValueBool (evalBinaryOp .eql (.vint a) (.vfloat g)))
    ∧ (∀ f g : GoFloat, evalBinaryOp .neq (.vfloat f) (.vfloat g)
          = negValueBool (evalBinaryOp .eql (.vfloat f) (.vfloat g)))
    ∧ (∀ a b : Bool, evalBinaryOp .neq (.vbool a) (.vbool b)
          = negValueBool (evalBinaryOp .eql (.vbool a) (.vbool b)))
    ∧ (∀ s t : String, evalBinaryOp .neq (.vstr s) (.vstr t)
          = negValueBool (evalBinaryOp .eql (.vstr s) (.vstr t))) := by
  refine ⟨fun l r => rfl, fun a b => rfl, fun a g => rfl, fun f g => rfl,
    fun a b => rfl, fun s t => rfl⟩

/-- C2 (code bug): sqrt on a numeric string.  The sqrt method of
src/eval.go has no string case, so sqrt("16") falls through to FloatError
= NaN, while the test TestSqrt in src/eval_test.go (and the variant source
with the string case, and the spec) expects 4.  The first conjunct
evaluates the failing input; the second shows every string argument is
rejected. -/
theorem c2_sqrt_rejects_numeric_strings :
    evalE dEnv 10 (.call "sqrt" [.litStr "\"16\""]) (some [])
        = .ok (.vfloat .nan, some [])
    ∧ (∀ (env : Env) (s : String) (st : St) (n : ℕ),
        evalE env (n + 4) (.call "sqrt" [.litStr s]) st = .ok (FloatError, st)) := by
  constructor
  · decide
  · intro env s st n
    simp [evalE, sqrtE, getArgE, getArgV, Bind.bind, Res.bind]

/-- C3: for a division whose left operand is numeric (Int or Float), a
divisor equal to integer 0 or float 0 yields exactly +Infinity (never NaN,
never an abort), any other divisor yields a Float value, and both Int
operands are promoted to float64 before the division. -/
theorem c3_division_semantics : ∀ a b : Value, isNumericV a = true →
    ((isZeroDivisor b = true → evalBinaryOp .quo a b = .vfloat .posInf)
    ∧ (∃ f, evalBinaryOp .quo a b = .vfloat f)
    ∧ (∀ la r : ℤ, a = .vint la → b = .vint r → r ≠ 0 →
        evalBinaryOp .quo a b = .vfloat (GoFloat.goDiv (.finite la) (.finite r)))
    ∧ (∀ (la : ℤ) (g : GoFloat), a = .vint la → b = .vfloat g →
        GoFloat.goEq g (.finite 0) = false →
        evalBinaryOp .quo a b = .vfloat (GoFloat.goDiv (.finite la) g))
    ∧ (∀ (lf : GoFloat) (r : ℤ), a = .vfloat lf → b = .vint r → r ≠ 0 →
        evalBinaryOp .quo a b = .vfloat (GoFloat.goDiv lf (.finite r)))
    ∧ (∀ lf g : GoFloat, a = .vfloat lf → b = .vfloat g →
        GoFloat.goEq g (.finite 0) = false →
        evalBinaryOp .quo a b = .vfloat (GoFloat.goDiv lf g))) := by
  have eII : ∀ l r : ℤ, evalBinaryOp .quo (.vint l) (.vint r)
      = if r = 0 then .vfloat .posInf
        else .vfloat (GoFloat.goDiv (.finite l) (.finite r)) := fun l r => rfl
  have eIF : ∀ (l : ℤ) (g : GoFloat), evalBinaryOp .quo (.vint l) (.vfloat g)
      = if GoFloat.goEq g (.finite 0) = true then .vfloat .posInf
        else .vfloat (GoFloat.goDiv (.finite l) g) := fun l g => rfl
  have eFI : ∀ (f : GoFloat) (r : ℤ), evalBinaryOp .quo (.vfloat f) (.vint r)
      = if r = 0 then .vfloat .posInf
        else .vfloat (GoFloat.goDiv f (.finite r)) := fun f r => rfl
  have eFF : ∀ f g : GoFloat, evalBinaryOp .quo (.vfloat f) (.vfloat g)
      = if GoFloat.goEq g (.finite 0) = true then .vfloat .posInf
        else .vfloat (GoFloat.goDiv f g) := fun f g => rfl
  intro a b ha
  refine ⟨?_, ?_, ?_, ?_, ?_, ?_⟩
  · intro hz
    cases a with
    | vint la =>
        cases b with
        | vint r =>
            have hr : r = 0 := by simpa [isZeroDivisor] using hz
            rw [eII, if_pos hr]
        | vfloat g =>
            have hg : GoFloat.goEq g (.finite 0) = true := by
              simpa [isZeroDivisor] using hz
            rw [eIF, if_pos hg]
        | vbool bb => simp [isZeroDivisor] at hz
        | vstr s => simp [isZeroDivisor] at hz
        | vint64 m => simp [isZeroDivisor] at hz
        | vnil => simp [isZeroDivisor] at hz
    | vfloat lf =>
        cases b with
        | vint r =>
            have hr : r = 0 := by simpa [isZeroDivisor] using hz
            rw [eFI, if_pos hr]
        | vfloat g =>
            have hg : GoFloat.goEq g (.finite 0) = true := by
              simpa [isZeroDivisor] using hz
            rw [eFF, if_pos hg]
        | vbool bb => simp [isZeroDivisor] at hz
        | vstr s => simp [isZeroDivisor] at hz
        | vint64 m => simp [isZeroDivisor] at hz
        | vnil => simp [isZeroDivisor] at hz
    | vbool bb => simp [isNumericV] at ha
    | vstr s => simp [isNumericV] at ha
    | vint64 m => simp [isNumericV] at ha
    | vnil => simp [isNumericV] at ha
  · cases a with
    | vint la =>
        cases b with
        | vint r => rw [eII]; split <;> exact ⟨_, rfl⟩
        | vfloat g => rw [eIF]; split <;> exact ⟨_, rfl⟩
        | vbool bb => exact ⟨.nan, rfl⟩
        | vstr s => exact ⟨.nan, rfl⟩
        | vint64 m => exact ⟨.nan, rfl⟩
        | vnil => exact ⟨.nan, rfl⟩
    | vfloat lf =>
        cases b with
        | vint r => rw [eFI]; split <;> exact ⟨_, rfl⟩
        | vfloat g => rw [eFF]; split <;> exact ⟨_, rfl⟩
        | vbool bb => exact ⟨.nan, rfl⟩
        | vstr s => exact ⟨.nan, rfl⟩
        | vint64 m => exact ⟨.nan, rfl⟩
        | vnil => exact ⟨.nan, rfl⟩
    | vbool bb => simp [isNumericV] at ha
    | vstr s => simp [isNumericV] at ha
    | vint64 m => simp [isNumericV] at ha
    | vnil => simp [isNumericV] at ha
  · rintro la r rfl rfl hr
    rw [eII, if_neg hr]
  · rintro la g rfl rfl hg
    rw [eIF, if_neg (by simp [hg])]
  · rintro lf r rfl rfl hr
    rw [eFI, if_neg hr]
  · rintro lf g rfl rfl hg
    rw [eFF, if_neg (by simp [hg])]

theorem c3_division_semantics_witness :
    isNumericV (Value.vint 1) = true
    ∧ isZeroDivisor (Value.vint 0) = true
    ∧ evalBinaryOp .quo (.vint 1) (.vint 0) = .vfloat .posInf :=
  ⟨by decide, by decide,
    (c3_division_semantics (.vint 1) (.vint 0) (by decide)).1 (by decide)⟩


/-- C10 (amended): getArg passes through bool, int, float64 and
quote-stripped strings but maps the int64 results of time() (and the nil
of setVal) to the NaN sentinel; time("","epoch") returns an int64; and
arithmetic on a NaN-sentinel operand yields NaN, except that division of
the sentinel by a zero divisor yields +Infinity. -/
theorem c10_time_int64_becomes_nan :
    (∀ n : ℤ, getArgV (.vint64 n) = .vfloat .nan)
    ∧ (∀ b : Bool, getArgV (.vbool b) = .vbool b)
    ∧ (∀ m : ℤ, getArgV (.vint m) = .vint m)
    ∧ (∀ f : GoFloat, getArgV (.vfloat f) = .vfloat f)
    ∧ (∀ s : String, getArgV (.vstr s) = .vstr (stringer s))
    ∧ getArgV .vnil = .vfloat .nan
    ∧ (∀ (env : Env) (st : St) (n : ℕ),
        evalE env (n + 4) (.call "time" [.litStr "\"\"", .litStr "\"epoch\""]) st
          = .ok (.vint64 env.nowEpoch, st))
    ∧ (∀ r : Value,
        evalBinaryOp .add (.vfloat .nan) r = .vfloat .nan
        ∧ evalBinaryOp .sub (.vfloat .nan) r = .vfloat .nan
        ∧ evalBinaryOp .mul (.vfloat .nan) r = .vfloat .nan
        ∧ (isZeroDivisor r = false →
            evalBinaryOp .quo (.vfloat .nan) r = .vfloat .nan)
        ∧ (isZeroDivisor r = true →
            evalBinaryOp .quo (.vfloat .nan) r = .vfloat .posInf))
    ∧ (∀ l : Value,
        evalBinaryOp .add l (.vfloat .nan) = .vfloat .nan
        ∧ evalBinaryOp .sub l (.vfloat .nan) = .vfloat .nan
        ∧ evalBinaryOp .mul l (.vfloat .nan) = .vfloat .nan
        ∧ evalBinaryOp .quo l (.vfloat .nan) = .vfloat .nan) := by
  refine ⟨fun n => rfl, fun b => rfl, fun m => rfl, fun f => rfl,
    fun s => rfl, rfl, ?_, ?_, ?_⟩
  · intro env st n
    have h1 : stringer "\"\"" = "" := by decide
    have h2 : stringer "\"epoch\"" = "epoch" := by decide
    have tc : timeCore env (.vstr "") (.vstr "epoch") = .vint64 env.nowEpoch := rfl
    simp [evalE, timeE, getArgE, getArgV, Bind.bind, Res.bind, h1, h2, tc]
  · intro r
    refine ⟨?_, ?_, ?_, ?_, ?_⟩
    · cases r with
      | vfloat g => cases g <;> rfl
      | vint m => rfl
      | vbool bb => rfl
      | vstr s => rfl
      | vint64 m => rfl
      | vnil => rfl
    · cases r with
      | vfloat g => cases g <;> rfl
      | vint m => rfl
      | vbool bb => rfl
      | vstr s => rfl
      | vint64 m => rfl
      | vnil => rfl
    · cases r with
      | vfloat g => cases g <;> rfl
      | vint m => rfl
      | vbool bb => rfl
      | vstr s => rfl
      | vint64 m => rfl
      | vnil => rfl
    · intro hz
      cases r with
      | vint m =>
          have hm : ¬ m = 0 := by simpa [isZeroDivisor] using hz
          have e : evalBinaryOp .quo (.vfloat .nan) (.vint m)
              = if m = 0 then .vfloat .posInf
                else .vfloat (GoFloat.goDiv .nan (.finite m)) := rfl
          rw [e, if_neg hm]
          rfl
      | vfloat g =>
          have hg : ¬ GoFloat.goEq g (.finite 0) = true := by
            simpa [isZeroDivisor] using hz
          have e : evalBinaryOp .quo (.vfloat .nan) (.vfloat g)
              = if GoFloat.goEq g (.finite 0) = true then .vfloat .posInf
                else .vfloat (GoFloat.goDiv .nan g) := rfl
          rw [e, if_neg hg]
          cases g <;> rfl
      | vbool bb => rfl
      | vstr s => rfl
      | vint64 m => rfl
      | vnil => rfl
    · intro hz
      cases r with
      | vint m =>
          have hm : m = 0 := by simpa [isZeroDivisor] using hz
          subst hm
          rfl
      | vfloat g =>
          have hg : GoFloat.goEq g (.finite 0) = true := by
            simpa [isZeroDivisor] using hz
          have e : evalBinaryOp .quo (.vfloat .nan) (.vfloat g)
              = if GoFloat.goEq g (.finite 0) = true then .vfloat .posInf
                else .vfloat (GoFloat.goDiv .nan g) := rfl
          rw [e, if_pos hg]
      | vbool bb => simp [isZeroDivisor] at hz
      | vstr s => simp [isZeroDivisor] at hz
      | vint64 m => simp [isZeroDivisor] at hz
      | vnil => simp [isZeroDivisor] at hz
  · intro l
    refine ⟨?_, ?_, ?_, ?_⟩
    · cases l with
      | vint m => rfl
      | vfloat g => cases g <;> rfl
      | vbool bb => rfl
      | vstr s => rfl
      | vint64 m => rfl
      | vnil => rfl
    · cases l with
      | vint m => rfl
      | vfloat g => cases g <;> rfl
      | vbool bb => rfl
      | vstr s => rfl
      | vint64 m => rfl
      | vnil => rfl
    · cases l with
      | vint m => rfl
      | vfloat g => cases g <;> rfl
      | vbool bb => rfl
      | vstr s => rfl
      | vint64 m => rfl
      | vnil => rfl
    · cases l with
      | vint m =>
          have e : evalBinaryOp .quo (.vint m) (.vfloat .nan)
              = if GoFloat.goEq .nan (.finite 0) = true then .vfloat .posInf
                else .vfloat (GoFloat.goDiv (.finite m) .nan) := rfl
          rw [e]
          rfl
      | vfloat g =>
          have e : evalBinaryOp .quo (.vfloat g) (.vfloat .nan)
              = if GoFloat.goEq .nan (.finite 0) = true then .vfloat .posInf
                else .vfloat (GoFloat.goDiv g .nan) := rfl
          rw [e]
          cases g <;> rfl
      | vbool bb => rfl
      | vstr s => rfl
      | vint64 m => rfl
      | vnil => rfl

theorem c10_time_int64_becomes_nan_witness :
    isZeroDivisor (Value.vint 0) = true
    ∧ evalBinaryOp .quo (.vfloat .nan) (.vint 0) = .vfloat .posInf :=
  ⟨by decide,
    ((c10_time_int64_becomes_nan.2.2.2.2.2.2.2.1 (Value.vint 0)).2.2.2.2) (by decide)⟩

/-- C10 counterexample: the claim "any arithmetic on a time result yields
NaN" fails for division by zero: time("","epoch") / 0 evaluates to
+Infinity, not NaN. -/
theorem c10_counterexample_div_zero_is_inf :
    evalE dEnv 10
        (.binary .quo (.call "time" [.litStr "\"\"", .litStr "\"epoch\""])
          (.litInt "0")) (some [])
      = .ok (.vfloat .posInf, some [])
    ∧ Value.vfloat .posInf ≠ Value.vfloat .nan := by
  exact ⟨by decide, by decide⟩


theorem goLe_nan_right (x : GoFloat) : GoFloat.goLe x .nan = false := by
  cases x <;> rfl

theorem goLe_nan_left (x : GoFloat) : GoFloat.goLe .nan x = false := by
  cases x <;> rfl

theorem goLe_finite (p q : ℚ) :
    GoFloat.goLe (.finite p) (.finite q) = decide (p ≤ q) := by
  simp only [GoFloat.goLe, GoFloat.goLt, GoFloat.goEq]
  by_cases h : p ≤ q
  · rcases lt_or_eq_of_le h with h1 | h1
    · simp [h, h1]
    · simp [h, h1]
  · have h1 : ¬ p < q := fun hc => h hc.le
    have h2 : ¬ p = q := fun hc => h (le_of_eq hc)
    simp [h, h1, h2]

/-- C6: isNaN on one argument returns true exactly when the numeric
coercion (the float64 builtin) of the evaluated argument value is NaN —
including strings that fail the numeric parse after quote stripping — and
returns false for every Bool input. -/
theorem c6_isnan_iff_coercion_nan :
    (∀ v : Value, isNaNCore v = GoFloat.goIsNaN (float64Core v))
    ∧ (∀ b : Bool, isNaNCore (.vbool b) = false)
    ∧ (∀ (env : Env) (f : Expr) (st : St) (v : Value) (st1 : St) (n : ℕ),
        evalE env n f st = .ok (v, st1) →
        evalE env (n + 2) (.call "isNaN" [f]) st
          = .ok (.vbool (GoFloat.goIsNaN (float64Core v)), st1)) := by
  have hcore : ∀ v : Value, isNaNCore v = GoFloat.goIsNaN (float64Core v) := by
    intro v
    cases v with
    | vstr s =>
        cases hq : goParseFloat (stringer s) with
        | some f => simp [isNaNCore, float64Core, hq]
        | none => simp [isNaNCore, float64Core, hq, GoFloat.goIsNaN]
    | vint m => rfl
    | vfloat f => rfl
    | vbool b => cases b <;> rfl
    | vint64 m => rfl
    | vnil => rfl
  refine ⟨hcore, fun b => rfl, ?_⟩
  intro env f st v st1 n h
  have e : evalE env (n + 2) (.call "isNaN" [f]) st = isNaNE env (n + 1) [f] st := rfl
  rw [e]
  simp only [isNaNE]
  rw [h]
  simp [Bind.bind, Res.bind, hcore v]

theorem c6_isnan_iff_coercion_nan_witness :
    evalE dEnv 1 (.litInt "5") (some []) = .ok (.vint 5, some [])
    ∧ evalE dEnv 3 (.call "isNaN" [.litInt "5"]) (some [])
        = .ok (.vbool false, some []) := by
  have h1 : evalE dEnv 1 (.litInt "5") (some []) = .ok (.vint 5, some []) := by
    decide
  have h2 := c6_isnan_iff_coercion_nan.2.2 dEnv (.litInt "5") (some [])
    (.vint 5) (some []) 1 h1
  refine ⟨h1, ?_⟩
  rw [h2]
  decide

/-- C8: isBetween with three operands returns false as soon as any operand
fails the numeric coercion of its f64Value helper (non-numeric or empty
string, NaN, an infinity, a boolean or any other non-numeric value), and
otherwise decides the inclusive range test lo <= v && v <= hi; at the call
level the three arguments are evaluated through getArg and the core test is
applied. -/
theorem c8_isbetween_coercion_failure_is_false : ∀ a b c : Value,
    ((f64Value a = .nan ∨ f64Value b = .nan ∨ f64Value c = .nan) →
      isBetweenCore a b c = false)
    ∧ (∀ qa qb qc : ℚ, f64Value a = .finite qa → f64Value b = .finite qb →
        f64Value c = .finite qc →
        isBetweenCore a b c = decide (qb ≤ qa ∧ qa ≤ qc))
    ∧ (∀ (env : Env) (n : ℕ) (st : St) (e1 e2 e3 : Expr)
        (v1 : Value) (st1 : St) (v2 : Value) (st2 : St) (v3 : Value) (st3 : St),
        getArgE env (n + 1) e1 st = .ok (v1, st1) →
        getArgE env (n + 1) e2 st1 = .ok (v2, st2) →
        getArgE env (n + 1) e3 st2 = .ok (v3, st3) →
        evalE env (n + 3) (.call "isBetween" [e1, e2, e3]) st
          = .ok (.vbool (isBetweenCore v1 v2 v3), st3)) := by
  intro a b c
  refine ⟨?_, ?_, ?_⟩
  · intro h
    unfold isBetweenCore goGe
    rcases h with h | h | h
    · rw [h, goLe_nan_right]
      simp
    · rw [h, goLe_nan_left]
      simp
    · rw [h, goLe_nan_right]
      simp
  · intro qa qb qc ha hb hc
    unfold isBetweenCore goGe
    rw [ha, hb, hc, goLe_finite, goLe_finite]
    simp
  · intro env n st e1 e2 e3 v1 st1 v2 st2 v3 st3 h1 h2 h3
    have e : evalE env (n + 3) (.call "isBetween" [e1, e2, e3]) st
        = isBetweenE env (n + 2) [e1, e2, e3] st := rfl
    rw [e]
    simp only [isBetweenE]
    rw [h1]
    simp only [Bind.bind, Res.bind]
    rw [h2]
    simp only [Res.bind]
    rw [h3]

theorem c8_isbetween_coercion_failure_is_false_witness :
    f64Value (Value.vbool true) = .nan
    ∧ isBetweenCore (.vbool true) (.vint 0) (.vint 1) = false :=
  ⟨by decide,
    (c8_isbetween_coercion_failure_is_false (.vbool true) (.vint 0) (.vint 1)).1
      (Or.inl (by decide))⟩


theorem mkRat_one_two : (mkRat 1 2 : ℚ) = 1 / 2 := by
  rw [Rat.mkRat_eq_div]
  norm_num

theorem floor_half_zero : ⌊(1 / 2 : ℚ)⌋ = 0 := by
  rw [Int.floor_eq_zero_iff]
  constructor <;> norm_num

theorem ratRoundAway_intCast (n : ℤ) :
    GoFloat.ratRoundAway ((n : ℤ) : ℚ) = ((n : ℤ) : ℚ) := by
  unfold GoFloat.ratRoundAway
  by_cases h : (0 : ℚ) ≤ ((n : ℤ) : ℚ)
  · rw [if_pos h, ratAdd_eq, mkRat_one_two, Int.floor_int_add,
      floor_half_zero, add_zero]
  · rw [if_neg h, ratAdd_eq, ratNeg_eq, mkRat_one_two]
    have hcast : (-((n : ℤ) : ℚ)) = (((-n : ℤ) : ℤ) : ℚ) := by push_cast; ring
    rw [hcast, Int.floor_int_add, floor_half_zero, add_zero]
    push_cast
    ring

theorem ratRoundAway_exists_int (q : ℚ) :
    ∃ m : ℤ, GoFloat.ratRoundAway q = ((m : ℤ) : ℚ) := by
  unfold GoFloat.ratRoundAway
  by_cases h : (0 : ℚ) ≤ q
  · rw [if_pos h]
    exact ⟨_, rfl⟩
  · rw [if_neg h]
    exact ⟨_, rfl⟩

theorem goRound_goRound (f : GoFloat) :
    GoFloat.goRound (GoFloat.goRound f) = GoFloat.goRound f := by
  cases f with
  | finite q =>
      show GoFloat.goRound (.finite (GoFloat.ratRoundAway q))
        = .finite (GoFloat.ratRoundAway q)
      obtain ⟨m, hm⟩ := ratRoundAway_exists_int q
      rw [hm]
      show GoFloat.finite (GoFloat.ratRoundAway ((m : ℤ) : ℚ)) = _
      rw [ratRoundAway_intCast]
  | posInf => rfl
  | negInf => rfl
  | nan => rfl

theorem goMul_finite_one (f : GoFloat) : GoFloat.goMul f (.finite 1) = f := by
  cases f with
  | finite a =>
      show GoFloat.finite (ratMul a 1) = .finite a
      rw [ratMul_eq, mul_one]
  | posInf =>
      show (if (0 : ℚ) < 1 then GoFloat.posInf
        else if (1 : ℚ) < 0 then GoFloat.negInf else GoFloat.nan) = GoFloat.posInf
      norm_num
  | negInf =>
      show (if (0 : ℚ) < 1 then GoFloat.negInf
        else if (1 : ℚ) < 0 then GoFloat.posInf else GoFloat.nan) = GoFloat.negInf
      norm_num
  | nan => rfl

theorem goDiv_finite_one (f : GoFloat) : GoFloat.goDiv f (.finite 1) = f := by
  cases f with
  | finite a =>
      show (if (1 : ℚ) = 0 then
          (if (0 : ℚ) < a then GoFloat.posInf
           else if a < 0 then GoFloat.negInf else GoFloat.nan)
        else GoFloat.finite (ratDiv a 1)) = GoFloat.finite a
      rw [if_neg (by norm_num), ratDiv_eq, div_one]
  | posInf =>
      show (if (0 : ℚ) ≤ 1 then GoFloat.posInf else GoFloat.negInf) = GoFloat.posInf
      norm_num
  | negInf =>
      show (if (0 : ℚ) ≤ 1 then GoFloat.negInf else GoFloat.posInf) = GoFloat.negInf
      norm_num
  | nan => rfl

/-- C7: rounding to zero digits is idempotent: for every operand value x,
round(round(x, 0), 0) equals round(x, 0). -/
theorem c7_round_zero_idempotent (x : Value) :
    roundCore (.vfloat (roundCore x (.vint 0))) (.vint 0) = roundCore x (.vint 0) := by
  have h0 : GoFloat.goPow10 (GoFloat.goTruncInt (roundCoerce (.vint 0)))
      = .finite 1 := by decide
  simp only [roundCore, h0]
  simp only [roundCoerce]
  rw [goMul_finite_one, goMul_finite_one, goDiv_finite_one, goDiv_finite_one,
    goRound_goRound]


/-- C5: substr follows the stated rule: empty string or zero length give "";
a start of magnitude at least the string length gives ""; a positive length
is clamped to the remaining length; a negative start counts from the end;
length -1 takes the tail (from start, or the last |start| characters for a
negative start); and the three examples substr("MyNameIsJohn",-4,-1) =
"John", substr("MyNameIsJohn",2,4) = "Name" and substr("",0,0) = "". -/
theorem c5_substr_rule :
    (∀ sp cl : Value, substrCore "" sp cl = some "")
    ∧ (∀ (s : String) (start : ℤ), substrCore s (.vint start) (.vint 0) = some "")
    ∧ (∀ (s : String) (start len : ℤ), (s.data.length : ℤ) ≤ |start| →
        substrCore s (.vint start) (.vint len) = some "")
    ∧ (∀ (s : String) (start len : ℤ),
        0 ≤ start → start < (s.data.length : ℤ) → 1 ≤ len →
        substrCore s (.vint start) (.vint len)
          = some (String.mk ((s.data.drop start.toNat).take
              (min len ((s.data.length : ℤ) - start)).toNat)))
    ∧ (∀ (s : String) (start : ℤ),
        0 ≤ start → start < (s.data.length : ℤ) →
        substrCore s (.vint start) (.vint (-1))
          = some (String.mk (s.data.drop start.toNat)))
    ∧ (∀ (s : String) (start : ℤ),
        -(s.data.length : ℤ) < start → start < 0 →
        substrCore s (.vint start) (.vint (-1))
          = some (String.mk (s.data.drop ((s.data.length : ℤ) + start).toNat)))
    ∧ (∀ (s : String) (start len : ℤ),
        -(s.data.length : ℤ) < start → start < 0 → 1 ≤ len →
        substrCore s (.vint start) (.vint len)
          = some (String.mk ((s.data.drop ((s.data.length : ℤ) + start).toNat).take
              (min len (-start)).toNat)))
    ∧ evalE dEnv 10 (.call "substr" [.litStr "\"MyNameIsJohn\"",
        .unary .usub (.litInt "4"), .unary .usub (.litInt "1")]) (some [])
        = .ok (.vstr "John", some [])
    ∧ evalE dEnv 10 (.call "substr" [.litStr "\"MyNameIsJohn\"",
        .litInt "2", .litInt "4"]) (some [])
        = .ok (.vstr "Name", some [])
    ∧ evalE dEnv 10 (.call "substr" [.litStr "\"\"", .litInt "0",
        .litInt "0"]) (some [])
        = .ok (.vstr "", some []) := by
  refine ⟨?_, ?_, ?_, ?_, ?_, ?_, ?_, by decide, by decide, by decide⟩
  · intro sp cl
    simp [substrCore]
  · intro s start
    by_cases hs : s = ""
    · subst hs
      simp [substrCore]
    · simp only [substrCore]
      rw [if_neg hs]
      simp
  · intro s start len habs
    by_cases hs : s = ""
    · subst hs
      simp [substrCore]
    · simp only [substrCore]
      rw [if_neg hs]
      by_cases hl : len = 0
      · rw [if_pos hl]
      · rw [if_neg hl, if_pos habs]
  · intro s start len h0 h1 h2
    have hs : ¬ s = "" := by
      intro he
      rw [he] at h1
      have : ((("" : String).data.length : ℕ) : ℤ) = 0 := by decide
      omega
    simp only [substrCore]
    rw [if_neg hs, if_neg (show ¬ len = 0 by omega)]
    have e1 : (if (s.data.length : ℤ) < len then (s.data.length : ℤ) else len)
        = min len (s.data.length : ℤ) := by split <;> omega
    rw [e1, abs_of_nonneg h0,
      if_neg (show ¬ (s.data.length : ℤ) ≤ start by omega),
      if_neg (show ¬ (0 ≤ start ∧ min len (s.data.length : ℤ) = -1) by omega),
      if_neg (show ¬ start < 0 by omega),
      if_neg (show ¬ start + min len (s.data.length : ℤ) < start by omega)]
    have e2 : (if (s.data.length : ℤ) ≤ start + min len (s.data.length : ℤ)
        then (s.data.length : ℤ) - start else min len (s.data.length : ℤ))
        = min len ((s.data.length : ℤ) - start) := by split <;> omega
    rw [e2]
    simp only [goSlice]
    rw [if_pos (by omega)]
    have e3 : start + min len ((s.data.length : ℤ) - start) - start
        = min len ((s.data.length : ℤ) - start) := by ring
    rw [e3]
  · intro s start h0 h1
    have hs : ¬ s = "" := by
      intro he
      rw [he] at h1
      have : ((("" : String).data.length : ℕ) : ℤ) = 0 := by decide
      omega
    simp only [substrCore]
    rw [if_neg hs, if_neg (show ¬ (-1 : ℤ) = 0 by omega)]
    have e1 : (if (s.data.length : ℤ) < -1 then (s.data.length : ℤ) else (-1 : ℤ))
        = -1 := by split <;> omega
    rw [e1, abs_of_nonneg h0,
      if_neg (show ¬ (s.data.length : ℤ) ≤ start by omega),
      if_pos (show 0 ≤ start ∧ (-1 : ℤ) = -1 from ⟨h0, rfl⟩)]
    simp only [goSlice]
    rw [if_pos (by omega)]
    have e3 : (s.data.drop start.toNat).take ((s.data.length : ℤ) - start).toNat
        = s.data.drop start.toNat := by
      apply List.take_all_of_le
      rw [List.length_drop]
      omega
    rw [e3]
  · intro s start h0 h1
    have hs : ¬ s = "" := by
      intro he
      rw [he] at h0
      have : ((("" : String).data.length : ℕ) : ℤ) = 0 := by decide
      omega
    simp only [substrCore]
    rw [if_neg hs, if_neg (show ¬ (-1 : ℤ) = 0 by omega)]
    have e1 : (if (s.data.length : ℤ) < -1 then (s.data.length : ℤ) else (-1 : ℤ))
        = -1 := by split <;> omega
    rw [e1, abs_of_neg h1,
      if_neg (show ¬ (s.data.length : ℤ) ≤ -start by omega),
      if_neg (show ¬ (0 ≤ start ∧ (-1 : ℤ) = -1) by omega),
      if_pos h1, if_pos rfl]
    simp only [goSlice]
    rw [if_pos (by omega)]
    have e3 : (s.data.drop ((s.data.length : ℤ) + start).toNat).take
          ((s.data.length : ℤ) - ((s.data.length : ℤ) + start)).toNat
        = s.data.drop ((s.data.length : ℤ) + start).toNat := by
      apply List.take_all_of_le
      rw [List.length_drop]
      omega
    rw [e3]
  · intro s start len h0 h1 h2
    have hs : ¬ s = "" := by
      intro he
      rw [he] at h0
      have : ((("" : String).data.length : ℕ) : ℤ) = 0 := by decide
      omega
    simp only [substrCore]
    rw [if_neg hs, if_neg (show ¬ len = 0 by omega)]
    have e1 : (if (s.data.length : ℤ) < len then (s.data.length : ℤ) else len)
        = min len (s.data.length : ℤ) := by split <;> omega
    rw [e1, abs_of_neg h1,
      if_neg (show ¬ (s.data.length : ℤ) ≤ -start by omega),
      if_neg (show ¬ (0 ≤ start ∧ min len (s.data.length : ℤ) = -1) by omega),
      if_pos h1,
      if_neg (show ¬ min len (s.data.length : ℤ) = -1 by omega)]
    have e2 : (if (s.data.length : ℤ) ≤ (s.data.length : ℤ) + start
            + min len (s.data.length : ℤ)
        then (s.data.length : ℤ) - ((s.data.length : ℤ) + start)
        else min len (s.data.length : ℤ)) = min len (-start) := by
      split <;> omega
    rw [e2]
    simp only [goSlice]
    rw [if_pos (by omega)]
    have e3 : (s.data.length : ℤ) + start + min len (-start)
        - ((s.data.length : ℤ) + start) = min len (-start) := by ring
    rw [e3]

theorem c5_substr_rule_witness :
    ((("MyNameIsJohn" : String).data.length : ℤ) ≤ |(20 : ℤ)|)
    ∧ substrCore "MyNameIsJohn" (.vint 20) (.vint 3) = some "" :=
  ⟨by decide, (c5_substr_rule.2.2.1) "MyNameIsJohn" 20 3 (by decide)⟩


theorem collectF_filterMap (env : Env) : ∀ (args : List Expr) (n : ℕ) (st : St)
    (vals : List Value) (st' : St),
    getArgsSeq env n args st = .ok (vals, st') →
    collectF env n args st = .ok (vals.filterMap usableFloat, st') := by
  intro args
  induction args with
  | nil =>
      intro n st vals st' h
      cases n with
      | zero => simp [getArgsSeq] at h
      | succ n =>
          simp only [getArgsSeq] at h
          cases h
          simp [collectF]
  | cons a rest ih =>
      intro n st vals st' h
      cases n with
      | zero => simp [getArgsSeq] at h
      | succ n =>
          simp only [getArgsSeq] at h
          obtain ⟨⟨v, st1⟩, h1, h⟩ := bind_okX h
          obtain ⟨⟨tail, st2⟩, h2, h⟩ := bind_okX h
          cases h
          have hc := ih n st1 tail st2 h2
          simp only [collectF]
          rw [h1]
          simp only [Bind.bind, Res.bind]
          rw [hc]
          simp only [Res.bind]
          cases v with
          | vint m => simp [List.filterMap_cons, usableFloat]
          | vfloat g => simp [List.filterMap_cons, usableFloat]
          | vstr s =>
              simp only [List.filterMap_cons, usableFloat]
              cases hn : GoFloat.goIsNaN (floater (stringer s)) <;> simp [hn]
          | vbool b => simp [List.filterMap_cons, usableFloat]
          | vint64 m => simp [List.filterMap_cons, usableFloat]
          | vnil => simp [List.filterMap_cons, usableFloat]

/-- C9: avg, min and max getArg-evaluate all their arguments, keep the Int,
Float and numeric-string values (skipping other values and strings whose
floater value is NaN) and reduce them (min fold, max fold, mean); with zero
usable arguments — in particular with no arguments at all — the result is
the NaN sentinel.  The examples max(10,20,30,-1.2,"ignore strings") = 30.0,
avg() = NaN and min(1/0) = +Infinity evaluate accordingly. -/
theorem c9_avg_min_max_reduce :
    (∀ (env : Env) (n : ℕ) (args : List Expr) (st : St) (vals : List Value)
        (st' : St), getArgsSeq env n args st = .ok (vals, st') →
      (evalE env (n + 2) (.call "min" args) st
          = .ok (.vfloat (specReduce 1 (vals.filterMap usableFloat)), st')
        ∧ evalE env (n + 2) (.call "max" args) st
          = .ok (.vfloat (specReduce 2 (vals.filterMap usableFloat)), st')
        ∧ evalE env (n + 2) (.call "avg" args) st
          = .ok (.vfloat (specReduce 3 (vals.filterMap usableFloat)), st')))
    ∧ evalE dEnv 10 (.call "max" [.litInt "10", .litInt "20", .litInt "30",
        .unary .usub (.litFloat (.finite (mkRat 12 10))),
        .litStr "\"ignore strings\""]) (some [])
        = .ok (.vfloat (.finite 30), some [])
    ∧ evalE dEnv 10 (.call "avg" []) (some []) = .ok (.vfloat .nan, some [])
    ∧ evalE dEnv 10 (.call "min" [.binary .quo (.litInt "1") (.litInt "0")])
        (some []) = .ok (.vfloat .posInf, some []) := by
  refine ⟨?_, by decide, by decide, by decide⟩
  intro env n args st vals st' h
  have e1 : evalE env (n + 2) (.call "min" args) st
      = avgMaxMinE env 1 (n + 1) args st := rfl
  have e2 : evalE env (n + 2) (.call "max" args) st
      = avgMaxMinE env 2 (n + 1) args st := rfl
  have e3 : evalE env (n + 2) (.call "avg" args) st
      = avgMaxMinE env 3 (n + 1) args st := rfl
  cases args with
  | nil =>
      cases n with
      | zero => simp [getArgsSeq] at h
      | succ m =>
          simp only [getArgsSeq] at h
          cases h
          exact ⟨by rw [e1]; rfl, by rw [e2]; rfl, by rw [e3]; rfl⟩
  | cons a rest =>
      have hc := collectF_filterMap env (a :: rest) n st vals st' h
      have key : ∀ flag : ℕ, avgMaxMinE env flag (n + 1) (a :: rest) st
          = .ok (.vfloat (specReduce flag (vals.filterMap usableFloat)), st') := by
        intro flag
        simp only [avgMaxMinE, List.isEmpty_cons]
        rw [if_neg (by simp)]
        rw [hc]
        simp only [Bind.bind, Res.bind]
        cases hfm : vals.filterMap usableFloat with
        | nil => simp [specReduce, FloatError]
        | cons f0 fs =>
            simp only [List.length_cons]
            rw [if_neg (by omega)]
            rcases flag with _ | _ | _ | _ | f <;> rfl
      exact ⟨by rw [e1]; exact key 1, by rw [e2]; exact key 2,
        by rw [e3]; exact key 3⟩

theorem c9_avg_min_max_reduce_witness :
    getArgsSeq dEnv 3 [.litInt "10"] (some []) = .ok ([.vint 10], some [])
    ∧ evalE dEnv 5 (.call "min" [.litInt "10"]) (some [])
        = .ok (.vfloat (specReduce 1 ([Value.vint 10].filterMap usableFloat)),
            some []) := by
  have h1 : getArgsSeq dEnv 3 [.litInt "10"] (some [])
      = .ok ([.vint 10], some []) := by decide
  exact ⟨h1, (c9_avg_min_max_reduce.1 dEnv 3 [.litInt "10"] (some [])
    [.vint 10] (some []) h1).1⟩

theorem evalE_litStr (env : Env) (p : ℕ) (s : String) (st : St) :
    evalE env (p + 1) (.litStr s) st = .ok (.vstr s, st) := rfl

theorem getArgE_litStr (env : Env) (p : ℕ) (s : String) (st : St) :
    getArgE env (p + 2) (.litStr s) st = .ok (.vstr (stringer s), st) := rfl

theorem getArgE_str_fixed (env : Env) (n : ℕ) (e : Expr) (st st' : St)
    (v : Value) (h : getArgE env n e st = .ok (v, st')) :
    ∀ s, v = .vstr s → stringer s = s := by
  intro s hv
  subst hv
  cases n with
  | zero => simp [getArgE] at h
  | succ n =>
      simp only [getArgE] at h
      obtain ⟨⟨u, st1⟩, hu, h2⟩ := bind_okX h
      simp only [Res.ok.injEq, Prod.mk.injEq] at h2
      exact getArgV_str_fixed u s h2.1

theorem storeMatch (st3 : St) (name : String) (value : Value) :
    isStorable value = true →
    (∀ s, value = .vstr s → stringer s = s) →
    (match value with
      | .vstr v => insertSt st3 name (.vstr (stringer v))
      | .vbool _ => insertSt st3 name value
      | .vint _ => insertSt st3 name value
      | .vfloat _ => insertSt st3 name value
      | _ => st3) = insertSt st3 name value := by
  cases value with
  | vstr u =>
      intro _ hfix
      show insertSt st3 name (.vstr (stringer u)) = insertSt st3 name (.vstr u)
      rw [hfix u rfl]
  | vbool b => intro _ _; rfl
  | vint m => intro _ _; rfl
  | vfloat f => intro _ _; rfl
  | vint64 m => intro h _; simp [isStorable] at h
  | vnil => intro h _; simp [isStorable] at h

/-- C4 (amended): for every key whose quote-stripped form is nonempty and
every storable value v obtained from argument evaluation, setVal(k, v)
stores exactly v under the stripped key, val(k) in a later evaluation on
the same instance returns exactly v (same type and value), and no
successful evaluation ever deletes a stored entry. -/
theorem c4_setval_val_roundtrip :
    (∀ (env : Env) (fuel : ℕ) (kTok k : String) (vExpr : Expr) (v : Value)
        (st0 st1 : St),
      stringer kTok = k → k ≠ "" →
      getArgE env (fuel + 2) vExpr (some (st0.getD [])) = .ok (v, st1) →
      isStorable v = true →
      (evalE env (fuel + 4) (.call "setVal" [.litStr kTok, vExpr]) st0
          = .ok (.vnil, insertSt st1 k v)
        ∧ lookupSt (insertSt st1 k v) k = some v
        ∧ (∀ g : ℕ, evalE env (g + 3) (.call "val" [.litStr kTok])
            (insertSt st1 k v) = .ok (v, insertSt st1 k v))))
    ∧ (∀ (env : Env) (n : ℕ) (e : Expr) (st : St) (out : Value × St),
        evalE env n e st = .ok out →
        ∀ key, (lookupSt st key).isSome → (lookupSt out.2 key).isSome) := by
  constructor
  · intro env fuel kTok k vExpr v st0 st1 h1 h2 h3 h4
    have hvfix := getArgE_str_fixed env (fuel + 2) vExpr (some (st0.getD []))
      st1 v h3
    have hname : stringer k = k := by
      rw [← h1]
      exact stringer_idem kTok
    have hlook : lookupSt (insertSt st1 k v) k = some v := by
      simp only [lookupSt, insertSt]
      rw [lookupVar_insertVar, if_pos rfl]
    have hfin : ∀ x : St, x = insertSt st1 k v →
        Res.bind (setValLoop env (fuel + 2) [] x)
            (fun stF => (.ok (.vnil, stF) : Res (Value × St)))
          = .ok (.vnil, insertSt st1 k v) := by
      intro x hx
      subst hx
      rfl
    refine ⟨?_, hlook, ?_⟩
    · have eCall : evalE env (fuel + 4)
          (.call "setVal" [.litStr kTok, vExpr]) st0
          = Res.bind (setValLoop env (fuel + 3) [.litStr kTok, vExpr] st0)
              (fun stF => .ok (.vnil, stF)) := rfl
      rw [eCall]
      simp only [setValLoop]
      rw [getArgE_litStr env fuel kTok st0]
      simp only [Bind.bind, Res.bind]
      rw [h1]
      simp only [hname]
      rw [if_neg h2]
      rw [h3]
      simp only [Res.bind]
      exact hfin _ (storeMatch st1 k v h4 hvfix)
    · intro g
      have eVal : evalE env (g + 3) (.call "val" [.litStr kTok])
          (insertSt st1 k v) = valE env (g + 2) [.litStr kTok]
            (insertSt st1 k v) := rfl
      rw [eVal]
      simp only [valE, insertSt]
      rw [evalE_litStr env g kTok]
      simp only [Bind.bind, Res.bind]
      rw [h1]
      have hm : lookupSt (some (insertVar (st1.getD []) k v)) k = some v := by
        simpa [insertSt] using hlook
      rw [hm]
  · intro env n e st out h key hk
    exact (interpPres env n).1 e st out h key hk

theorem c4_setval_val_roundtrip_witness :
    stringer "\"n\"" = "n"
    ∧ ("n" : String) ≠ ""
    ∧ getArgE dEnv 3 (.litInt "10") (some (((none : St)).getD []))
        = .ok (.vint 10, some [])
    ∧ isStorable (Value.vint 10) = true
    ∧ (evalE dEnv 5 (.call "setVal" [.litStr "\"n\"", .litInt "10"]) none
        = .ok (.vnil, insertSt (some []) "n" (.vint 10))
      ∧ lookupSt (insertSt (some []) "n" (.vint 10)) "n" = some (.vint 10)
      ∧ (∀ g : ℕ, evalE dEnv (g + 3) (.call "val" [.litStr "\"n\""])
          (insertSt (some []) "n" (.vint 10))
          = .ok (.vint 10, insertSt (some []) "n" (.vint 10)))) :=
  ⟨by decide, by decide, by decide, by decide,
    c4_setval_val_roundtrip.1 dEnv 1 "\"n\"" "n" (.litInt "10") (.vint 10)
      none (some []) (by decide) (by decide) (by decide) (by decide)⟩

/-- C4 counterexample: with the empty key, setVal("",5) stores nothing and
val("") afterwards returns the empty string, not 5, so the unrestricted
claim fails. -/
theorem c4_empty_key_fails :
    evalE dEnv 10 (.call "setVal" [.litStr "\"\"", .litInt "5"]) none
      = .ok (.vnil, some [])
    ∧ evalE dEnv 10 (.call "val" [.litStr "\"\""]) (some [])
      = .ok (.vstr "", some [])
    ∧ Value.vstr "" ≠ Value.vint 5 :=
  ⟨by decide, by decide, by decide⟩

end GoEval
